import Mathlib

/-!
# Assignment2.c : an assembly-statement syntax checker

A shallow embedding of `src/Assignment2.c` and the properties of its
tokenizer (`process_tokens`), positional validator (`validate_statement`) and
line loop (`main`).

Conventions of the embedding
* A C string is the `String` of the characters before its terminating NUL.
* A `const char *x[]` table is a `List String`; reading index `i` is `x[i]?`,
  and a read outside the initialised part of an array is `none` (undefined
  behaviour in C), which aborts the whole computation.
* `int` values are `Int`; a signed overflow is `none`.
* Standard output is the list of the `printf` calls performed, in order
  (`Emit`); `stdout_text` renders that list to the characters written.
-/

namespace Assignment2

/-! ## Section 1 of the source: constant definitions -/

def MAX_LINE_LEN : Nat := 256

def IMPERATIVE_STMTS : List String :=
  ["STOP", "ADD", "SUB", "MULT", "DIV", "PRINT", "MOVER", "MOVEM", "COMP", "BC"]

def DECLARATIVE_STMTS : List String := ["DS", "DC", "READ"]

def ASSEMBLER_DIRS : List String := ["START", "END", "ORIGIN", "EQU", "LTORG"]

def CONDITION_CODES : List String := ["LT", "LE", "GT", "GE", "EQ", "NE"]

def REGISTERS : List String := ["AREG", "BREG", "CREG", "DREG"]

def IMPERATIVE_COUNT : Int := 10

def DECLARATIVE_COUNT : Int := 3

def ASSEMBLER_DIRS_COUNT : Int := 5

def CONDITION_CODES_COUNT : Int := 6

def REGISTERS_COUNT : Int := 4

/-! ## Standard output -/

/-- One `printf` call of `validate_statement`.
* `error n msg tok` is `printf("Error (Line %d): <msg> '%s'\n", n, tok)`;
* `valid_head n` is `printf("[VALID] Line %d: ", n)`;
* `echo tok` is `printf("%s ", tok)`;
* `newline` is `printf("\n")`. -/
inductive Emit where
  | error (line_num : Int) (msg : String) (token : String)
  | valid_head (line_num : Int)
  | echo (token : String)
  | newline
  deriving DecidableEq, Repr

/-- The characters one `printf` call writes (`%d` prints an `int` in decimal). -/
def Emit.text : Emit → String
  | .error line_num msg token =>
      "Error (Line " ++ toString line_num ++ "): " ++ msg ++ " '" ++ token ++ "'\n"
  | .valid_head line_num => "[VALID] Line " ++ toString line_num ++ ": "
  | .echo token => token ++ " "
  | .newline => "\n"

/-- The characters written to standard output by a sequence of `printf` calls. -/
def stdout_text (out : List Emit) : String :=
  String.join (out.map Emit.text)

/-! ## `is_in_category` (source lines 66-73) -/

/-- The `for (int i = 0; i < count; i++)` loop of `is_in_category`, entered at
index `i` with `k = count - i` iterations left.  `strcmp(a, b) == 0` is string
equality. -/
def is_in_category_loop (token : String) (category : List String) : Nat → Nat → Option Bool
  | 0, _ => some false
  | k + 1, i =>
    match category[i]? with
    | none => none
    | some word => if token = word then some true else is_in_category_loop token category k (i + 1)

def is_in_category (token : String) (category : List String) (count : Int) : Option Bool :=
  is_in_category_loop token category count.toNat 0

/-- C's short-circuit `a || b`: `b` is evaluated only when `a` is false. -/
def c_or (a b : Option Bool) : Option Bool :=
  match a with
  | none => none
  | some true => some true
  | some false => b

/-! ## `validate_statement` (source lines 82-208) -/

/-- The part of the state of `validate_statement` that changes: what has been
printed so far and the local `has_error`. -/
structure VState where
  out : List Emit
  has_error : Bool
  deriving DecidableEq, Repr

/-- One `if (cond) { printf(...); has_error = true; }` block. -/
def check (cond : Option Bool) (e : Emit) (st : VState) : Option VState :=
  match cond with
  | none => none
  | some true => some { out := st.out ++ [e], has_error := true }
  | some false => some st

/-- The condition of CHECK 1 (label) and of the memory-operand checks: the five
`is_in_category` calls joined by `||`. -/
def cond_all_five (tok : String) : Option Bool :=
  c_or (is_in_category tok IMPERATIVE_STMTS IMPERATIVE_COUNT)
    (c_or (is_in_category tok DECLARATIVE_STMTS DECLARATIVE_COUNT)
      (c_or (is_in_category tok ASSEMBLER_DIRS ASSEMBLER_DIRS_COUNT)
        (c_or (is_in_category tok CONDITION_CODES CONDITION_CODES_COUNT)
          (is_in_category tok REGISTERS REGISTERS_COUNT))))

/-- The condition of CHECK 2 (mnemonic): no `IMPERATIVE_STMTS` call. -/
def cond_mnemonic (tok : String) : Option Bool :=
  c_or (is_in_category tok DECLARATIVE_STMTS DECLARATIVE_COUNT)
    (c_or (is_in_category tok ASSEMBLER_DIRS ASSEMBLER_DIRS_COUNT)
      (c_or (is_in_category tok CONDITION_CODES CONDITION_CODES_COUNT)
        (is_in_category tok REGISTERS REGISTERS_COUNT)))

/-- The condition of CHECK 3 of the 4-token branch (register operand): no
`REGISTERS` call. -/
def cond_register_op (tok : String) : Option Bool :=
  c_or (is_in_category tok IMPERATIVE_STMTS IMPERATIVE_COUNT)
    (c_or (is_in_category tok DECLARATIVE_STMTS DECLARATIVE_COUNT)
      (c_or (is_in_category tok ASSEMBLER_DIRS ASSEMBLER_DIRS_COUNT)
        (is_in_category tok CONDITION_CODES CONDITION_CODES_COUNT)))

/-- The `if / else if` chain on `token_count` (source lines 86-198), run from
the state `st`. -/
def validate_statement_checks (line_num : Int) (tokens : List String) (token_count : Int)
    (st : VState) : Option VState :=
  if token_count = 4 then
    match tokens[0]?, tokens[1]?, tokens[2]?, tokens[3]? with
    | some label, some mnemonic, some register_op, some memory_op =>
      (check (cond_all_five label) (.error line_num "Invalid Symbolic Name" label) st).bind
        fun st1 =>
      (check (cond_mnemonic mnemonic)
        (.error line_num "Invalid Mnemonic Instruction" mnemonic) st1).bind fun st2 =>
      (check (cond_register_op register_op)
        (.error line_num "Invalid Register Operand" register_op) st2).bind fun st3 =>
      check (cond_all_five memory_op)
        (.error line_num "Invalid Symbolic Name (Memory Operand)" memory_op) st3
    | _, _, _, _ => none
  else if token_count = 3 then
    match tokens[0]?, tokens[1]?, tokens[2]? with
    | some label, some mnemonic, some memory_op =>
      (check (cond_all_five label) (.error line_num "Invalid Symbolic Name" label) st).bind
        fun st1 =>
      (check (cond_mnemonic mnemonic)
        (.error line_num "Invalid Mnemonic Instruction" mnemonic) st1).bind fun st2 =>
      check (cond_all_five memory_op)
        (.error line_num "Invalid Symbolic Name (Memory Operand)" memory_op) st2
    | _, _, _ => none
  else if token_count = 2 then
    match tokens[0]?, tokens[1]? with
    | some label, some mnemonic =>
      (check (cond_all_five label) (.error line_num "Invalid Symbolic Name" label) st).bind
        fun st1 =>
      check (cond_mnemonic mnemonic)
        (.error line_num "Invalid Mnemonic Instruction" mnemonic) st1
    | _, _ => none
  else if token_count = 1 then
    match tokens[0]? with
    | some mnemonic =>
      check (some (decide (mnemonic ≠ "STOP") && decide (mnemonic ≠ "LTORG")))
        (.error line_num "Invalid Mnemonic Instruction" mnemonic) st
    | none => none
  else some st

/-- The echo loop `for (int i = 0; i < token_count; i++) printf("%s ", tokens[i])`,
entered at index `i` with `k = token_count - i` iterations left. -/
def echo_loop (tokens : List String) : Nat → Nat → List Emit → Option (List Emit)
  | 0, _, out => some out
  | k + 1, i, out =>
    match tokens[i]? with
    | none => none
    | some tok => echo_loop tokens k (i + 1) (out ++ [.echo tok])

/-- The final `if (!has_error) { ... }` block (source lines 201-207). -/
def validate_statement_report (line_num : Int) (tokens : List String) (token_count : Int)
    (st : VState) : Option VState :=
  if !st.has_error then
    (echo_loop tokens token_count.toNat 0 (st.out ++ [.valid_head line_num])).map
      fun out => { out := out ++ [.newline], has_error := st.has_error }
  else some st

/-- The run of `validate_statement`: final output and final value of `has_error`. -/
def validate_statement_run (line_num : Int) (tokens : List String) (token_count : Int) :
    Option VState :=
  (validate_statement_checks line_num tokens token_count { out := [], has_error := false }).bind
    (validate_statement_report line_num tokens token_count)

/-- What `validate_statement` prints. -/
def validate_statement (line_num : Int) (tokens : List String) (token_count : Int) :
    Option (List Emit) :=
  (validate_statement_run line_num tokens token_count).map VState.out

/-! ## `process_tokens` (source lines 216-230) -/

/-- The C library's `strtok` on the string starting at the current position
(`line` on the first call, the saved position on the calls with `NULL`):
skip the leading delimiters; at the end of the string return `NULL` (`none`);
otherwise the token runs up to the next delimiter or the end of the string, and
the saved position is just after that delimiter (or the end of the string). -/
def strtok (s : List Char) (delim : List Char) : Option (List Char × List Char) :=
  match s.dropWhile (fun c => delim.contains c) with
  | [] => none
  | c :: cs =>
    match (c :: cs).dropWhile (fun x => !delim.contains x) with
    | [] => some ((c :: cs).takeWhile (fun x => !delim.contains x), [])
    | _ :: rest => some ((c :: cs).takeWhile (fun x => !delim.contains x), rest)

/-- The store `tokens[i] = token` into `char *tokens[10]`, of which `tokens` is
the part written so far; `none` is a store outside the array. -/
def store_token (tokens : List String) (i : Nat) (token : String) : Option (List String) :=
  if i < 10 then
    if i < tokens.length then some (tokens.set i token)
    else if i = tokens.length then some (tokens ++ [token])
    else none
  else none

/-- The state of the loop of `process_tokens`: the pointer `token` (`none` is
`NULL`), the position saved inside `strtok`, the array and `token_count`. -/
structure TState where
  token : Option (List Char)
  save : List Char
  tokens : List String
  token_count : Nat
  deriving DecidableEq, Repr

/-- The value of `token` and the saved position after a call of `strtok`. -/
def call_strtok (s : List Char) (tokens : List String) (token_count : Nat) : TState :=
  match strtok s [' ', '\t'] with
  | none => { token := none, save := [], tokens := tokens, token_count := token_count }
  | some (tok, rest) =>
    { token := some tok, save := rest, tokens := tokens, token_count := token_count }

/-- At most `fuel` iterations of `while (token != NULL && token_count < 10)`. -/
def process_tokens_loop : Nat → TState → Option TState
  | 0, st => some st
  | fuel + 1, st =>
    match st.token with
    | none => some st
    | some token =>
      if st.token_count < 10 then
        match store_token st.tokens st.token_count (String.mk token) with
        | none => none
        | some tokens => process_tokens_loop fuel (call_strtok st.save tokens (st.token_count + 1))
      else some st

/-- The tokenizing part of `process_tokens`: the state when the loop is left.
Every iteration increments `token_count` and none runs with `token_count >= 10`,
so 10 iterations are enough (see `process_tokens_loop_spec`). -/
def process_tokens_scan (line : String) : Option TState :=
  process_tokens_loop 10 (call_strtok line.toList [] 0)

/-- What `process_tokens` prints. -/
def process_tokens (line_num : Int) (line : String) : Option (List Emit) :=
  (process_tokens_scan line).bind fun st =>
    validate_statement line_num st.tokens (st.token_count : Int)

/-! ## The words of the specification -/

/-- The delimiters of the specification: space and horizontal tab. -/
def is_delimiter (c : Char) : Bool := c = ' ' || c = '\t'

/-- The maximal non-empty runs of characters other than space and tab, left to
right: the pieces between delimiters, the empty pieces dropped. -/
def maximal_runs (s : List Char) : List (List Char) :=
  (s.splitOnP is_delimiter).filter fun r => !r.isEmpty

/-- The words of a line. -/
def words (line : String) : List String :=
  (maximal_runs line.toList).map String.mk

/-- Imperative ∪ Declarative ∪ Directives ∪ Conditions ∪ Registers. -/
def ALL_FIVE : List String :=
  IMPERATIVE_STMTS ++ DECLARATIVE_STMTS ++ ASSEMBLER_DIRS ++ CONDITION_CODES ++ REGISTERS

/-- Declarative ∪ Directives ∪ Conditions ∪ Registers. -/
def ALL_BUT_IMPERATIVE : List String :=
  DECLARATIVE_STMTS ++ ASSEMBLER_DIRS ++ CONDITION_CODES ++ REGISTERS

/-- Imperative ∪ Declarative ∪ Directives ∪ Conditions. -/
def ALL_BUT_REGISTERS : List String :=
  IMPERATIVE_STMTS ++ DECLARATIVE_STMTS ++ ASSEMBLER_DIRS ++ CONDITION_CODES

/-- The report of a Valid statement: `[VALID] Line n: `, every token followed
by one space, a newline. -/
def valid_block (line_num : Int) (tokens : List String) : List Emit :=
  .valid_head line_num :: (tokens.map Emit.echo ++ [.newline])

/-- The words still to be delivered in a loop state: the current token, then
the runs of the text after the saved position. -/
def pending (st : TState) : List (List Char) :=
  match st.token with
  | none => []
  | some tok => tok :: maximal_runs st.save

/-- One cell of the positional rule table of the specification: the index of the
token checked, the violation message of the slot's role, and the test that makes
the token a violation. -/
structure SlotRule where
  slot : Nat
  msg : String
  forbidden : String → Bool

/-- The positional rule table of the specification, by statement shape (token
count): label, mnemonic, register operand and memory operand for 4 tokens;
label, mnemonic and memory operand for 3; label and mnemonic for 2; for 1, the
mnemonic, which must be exactly `STOP` or `LTORG`; no rule for any other count. -/
def rule_table (count : Nat) : List SlotRule :=
  if count = 4 then
    [ { slot := 0, msg := "Invalid Symbolic Name", forbidden := fun t => decide (t ∈ ALL_FIVE) },
      { slot := 1, msg := "Invalid Mnemonic Instruction",
        forbidden := fun t => decide (t ∈ ALL_BUT_IMPERATIVE) },
      { slot := 2, msg := "Invalid Register Operand",
        forbidden := fun t => decide (t ∈ ALL_BUT_REGISTERS) },
      { slot := 3, msg := "Invalid Symbolic Name (Memory Operand)",
        forbidden := fun t => decide (t ∈ ALL_FIVE) } ]
  else if count = 3 then
    [ { slot := 0, msg := "Invalid Symbolic Name", forbidden := fun t => decide (t ∈ ALL_FIVE) },
      { slot := 1, msg := "Invalid Mnemonic Instruction",
        forbidden := fun t => decide (t ∈ ALL_BUT_IMPERATIVE) },
      { slot := 2, msg := "Invalid Symbolic Name (Memory Operand)",
        forbidden := fun t => decide (t ∈ ALL_FIVE) } ]
  else if count = 2 then
    [ { slot := 0, msg := "Invalid Symbolic Name", forbidden := fun t => decide (t ∈ ALL_FIVE) },
      { slot := 1, msg := "Invalid Mnemonic Instruction",
        forbidden := fun t => decide (t ∈ ALL_BUT_IMPERATIVE) } ]
  else if count = 1 then
    [ { slot := 0, msg := "Invalid Mnemonic Instruction",
        forbidden := fun t => decide (¬ (t = "STOP" ∨ t = "LTORG")) } ]
  else []

/-- The violated slots of a statement, in table order, each with its token. -/
def violated_slots (tokens : List String) : List (SlotRule × String) :=
  (rule_table tokens.length).filterMap fun r =>
    match tokens[r.slot]? with
    | some t => if r.forbidden t then some (r, t) else none
    | none => none

/-- One `Error` line per violated slot, quoting the token of the slot. -/
def error_lines (line_num : Int) (tokens : List String) : List Emit :=
  (violated_slots tokens).map fun p => Emit.error line_num p.1.msg p.2

/-- Whether a `printf` call is one of the `Error (Line ...)` calls. -/
def Emit.is_error : Emit → Bool
  | .error _ _ _ => true
  | _ => false

/-! ## `main` (source lines 32-51) -/

/-- The largest value of an `int`. -/
def INT_MAX : Int := 2147483647

/-- The characters `fgets` stores when it may still store `k` of them: it stops
after a newline, at the end of the file, or when `k` characters are stored.
The result is what was stored and what is left of the file. -/
def fgets_read : Nat → List Char → List Char × List Char
  | 0, file => ([], file)
  | _ + 1, [] => ([], [])
  | k + 1, c :: cs =>
    if c = '\n' then ([c], cs)
    else ((c :: (fgets_read k cs).1), (fgets_read k cs).2)

/-- The C library's `fgets(buf, size, file)` on the unread part of the file:
`NULL` (`none`) at the end of the file, otherwise at most `size - 1` characters
are stored (and a terminating NUL after them). -/
def fgets (size : Nat) (file : List Char) : Option (List Char × List Char) :=
  match file with
  | [] => none
  | _ :: _ => some (fgets_read (size - 1) file)

/-- The C string held by a buffer: the characters before its first NUL. -/
def c_string (buf : List Char) : List Char :=
  buf.takeWhile fun c => c != '\x00'

/-- The C library's `strcspn(s, reject)`: the length of the longest prefix of
`s` free of the characters of `reject`. -/
def strcspn (s reject : List Char) : Nat :=
  (s.takeWhile fun c => !reject.contains c).length

/-- The statement `line[strcspn(line, "\n")] = '\0'` on the buffer filled by
`fgets`: the C string `line` afterwards. -/
def strip_newline (buf : List Char) : List Char :=
  (c_string buf).take (strcspn (c_string buf) ['\n'])

/-- At most `fuel` iterations of `while (fgets(line, sizeof(line), file))`, from
the unread part of the file, the value of `line_num` and the blocks printed so
far (one block per call of `process_tokens`).  `line_num++` on `INT_MAX` is a
signed overflow, undefined in C (`none`). -/
def main_loop : Nat → List Char → Int → List (List Emit) → Option (List (List Emit))
  | 0, file, _, blocks =>
    match file with
    | [] => some blocks
    | _ :: _ => none
  | fuel + 1, file, line_num, blocks =>
    match fgets MAX_LINE_LEN file with
    | none => some blocks
    | some (buf, rest) =>
      if line_num < INT_MAX then
        match process_tokens (line_num + 1) (String.mk (strip_newline buf)) with
        | none => none
        | some block => main_loop fuel rest (line_num + 1) (blocks ++ [block])
      else none

/-- The blocks printed by the loop of `main` on a file that could be opened.
Every call of `fgets` that does not return `NULL` reads at least one character,
so as many iterations as the file has characters are enough. -/
def main_blocks (file : List Char) : Option (List (List Emit)) :=
  main_loop file.length file 0 []

/-- What `main` prints and returns; `file` is the content of `a.txt`, `none`
when it cannot be opened. -/
def main (file : Option (List Char)) : Option (String × Int) :=
  match file with
  | none => some ("Error: Could not open file 'a.txt'\n", 1)
  | some content =>
    (main_blocks content).map fun blocks => (stdout_text blocks.flatten, 0)

/-! ## More words of the specification -/

/-- A `printf` call with its line number replaced by `m`. -/
def Emit.with_line (m : Int) : Emit → Emit
  | .error _ msg token => .error m msg token
  | .valid_head _ => .valid_head m
  | .echo token => .echo token
  | .newline => .newline

/-- The text of an input whose lines are `lines`, each ended by a newline. -/
def file_of_lines (lines : List (List Char)) : List Char :=
  (lines.map fun l => l ++ ['\n']).flatten

/-- The report block of the specification for the line text `l` with line
number `n`: the tokens are the first 10 words of the text before its first NUL;
the `[VALID]` block when no slot is violated, else one `Error` line per violated
slot. -/
def report (n : Int) (l : List Char) : List Emit :=
  if (violated_slots ((words (String.mk (c_string l))).take 10)).isEmpty
  then valid_block n ((words (String.mk (c_string l))).take 10)
  else error_lines n ((words (String.mk (c_string l))).take 10)

/-- The report blocks of the lines `lines`, numbered from `n + 1` on. -/
def reports_from (n : Int) : List (List Char) → List (List Emit)
  | [] => []
  | l :: ls => report (n + 1) l :: reports_from (n + 1) ls

/-- The pieces in which a line of text `l` that is followed by its newline is
read: piece `i` is the characters `255 * i` to `255 * i + 254` of `l`; every run
of 255 characters is a piece, and so is what is left before the newline, also
when nothing is left. -/
def line_pieces (l : List Char) : List (List Char) :=
  (List.range (l.length / 255 + 1)).map fun i => (l.drop (255 * i)).take 255

/-- The pieces in which a last line `l` without a newline is read: piece `i` is
the characters `255 * i` to `255 * i + 254` of `l`, as long as there are any. -/
def last_pieces (l : List Char) : List (List Char) :=
  (List.range ((l.length + 254) / 255)).map fun i => (l.drop (255 * i)).take 255

/-- The categories, among the five, that hold `token` according to
`is_in_category`. -/
def categories_of (token : String) : List (List String) :=
  [(IMPERATIVE_STMTS, IMPERATIVE_COUNT), (DECLARATIVE_STMTS, DECLARATIVE_COUNT),
    (ASSEMBLER_DIRS, ASSEMBLER_DIRS_COUNT), (CONDITION_CODES, CONDITION_CODES_COUNT),
    (REGISTERS, REGISTERS_COUNT)].filterMap fun p =>
      if is_in_category token p.1 p.2 = some true then some p.1 else none

/-! ## Lemmas on `is_in_category` -/

theorem is_in_category_loop_true_iff (token : String) (category : List String) (k i : Nat) :
    is_in_category_loop token category k i = some true ↔
      ∃ j, i ≤ j ∧ j < i + k ∧ category[j]? = some token := by
  induction k generalizing i with
  | zero =>
    simp only [is_in_category_loop, Nat.add_zero]
    constructor
    · intro h; cases h
    · rintro ⟨j, h1, h2, -⟩; omega
  | succ k ih =>
    simp only [is_in_category_loop]
    cases hc : category[i]? with
    | none =>
      simp only
      constructor
      · intro h; cases h
      · rintro ⟨j, h1, _, h3⟩
        have hlen : category.length ≤ i := List.getElem?_eq_none_iff.mp hc
        have hj : j < category.length := by
          by_contra hcon
          rw [List.getElem?_eq_none_iff.mpr (Nat.le_of_not_lt hcon)] at h3
          cases h3
        omega
    | some word =>
      simp only
      by_cases hw : token = word
      · simp only [hw, if_true, true_iff]
        exact ⟨i, le_refl i, by omega, hc⟩
      · simp only [hw, if_false]
        rw [ih (i + 1)]
        constructor
        · rintro ⟨j, h1, h2, h3⟩
          exact ⟨j, by omega, by omega, h3⟩
        · rintro ⟨j, h1, h2, h3⟩
          have hne : j ≠ i := by
            rintro rfl
            rw [hc] at h3
            exact hw (Option.some.inj h3).symm
          exact ⟨j, by omega, by omega, h3⟩

theorem is_in_category_loop_total (token : String) (category : List String) (k i : Nat)
    (h : i + k ≤ category.length) :
    is_in_category_loop token category k i = some true ∨
      is_in_category_loop token category k i = some false := by
  induction k generalizing i with
  | zero => right; rfl
  | succ k ih =>
    simp only [is_in_category_loop]
    have hi : i < category.length := by omega
    rw [List.getElem?_eq_getElem hi]
    simp only
    by_cases hw : token = category[i]
    · left; simp [hw]
    · simp only [hw, if_false]
      exact ih (i + 1) (by omega)

/-- With `count` equal to the number of words of the table, `is_in_category`
is membership in the table. -/
theorem is_in_category_table (token : String) (category : List String) (count : Int)
    (h : count = (category.length : Int)) :
    is_in_category token category count = some (decide (token ∈ category)) := by
  subst h
  have hiff := is_in_category_loop_true_iff token category category.length 0
  have htot := is_in_category_loop_total token category category.length 0 (by omega)
  have hmem : token ∈ category ↔ ∃ j, 0 ≤ j ∧ j < 0 + category.length ∧ category[j]? = some token := by
    rw [List.mem_iff_getElem?]
    constructor
    · rintro ⟨j, hj⟩
      have hlt : j < category.length := by
        by_contra hcon
        rw [List.getElem?_eq_none_iff.mpr (Nat.le_of_not_lt hcon)] at hj
        cases hj
      exact ⟨j, Nat.zero_le j, by omega, hj⟩
    · rintro ⟨j, -, -, hj⟩
      exact ⟨j, hj⟩
  unfold is_in_category
  simp only [Int.toNat_ofNat]
  by_cases hm : token ∈ category
  · rw [decide_eq_true hm]
    exact hiff.mpr (hmem.mp hm)
  · rw [decide_eq_false hm]
    rcases htot with h1 | h1
    · exact absurd (hmem.mpr (hiff.mp h1)) hm
    · exact h1

theorem is_in_IMPERATIVE (token : String) :
    is_in_category token IMPERATIVE_STMTS IMPERATIVE_COUNT
      = some (decide (token ∈ IMPERATIVE_STMTS)) :=
  is_in_category_table token _ _ rfl

theorem is_in_DECLARATIVE (token : String) :
    is_in_category token DECLARATIVE_STMTS DECLARATIVE_COUNT
      = some (decide (token ∈ DECLARATIVE_STMTS)) :=
  is_in_category_table token _ _ rfl

theorem is_in_ASSEMBLER_DIRS (token : String) :
    is_in_category token ASSEMBLER_DIRS ASSEMBLER_DIRS_COUNT
      = some (decide (token ∈ ASSEMBLER_DIRS)) :=
  is_in_category_table token _ _ rfl

theorem is_in_CONDITION_CODES (token : String) :
    is_in_category token CONDITION_CODES CONDITION_CODES_COUNT
      = some (decide (token ∈ CONDITION_CODES)) :=
  is_in_category_table token _ _ rfl

theorem is_in_REGISTERS (token : String) :
    is_in_category token REGISTERS REGISTERS_COUNT
      = some (decide (token ∈ REGISTERS)) :=
  is_in_category_table token _ _ rfl

/-! ## Lemmas on the conditions and blocks of `validate_statement` -/

theorem c_or_some (a b : Bool) : c_or (some a) (some b) = some (a || b) := by
  cases a <;> rfl

theorem cond_all_five_eq (tok : String) :
    cond_all_five tok = some (decide (tok ∈ ALL_FIVE)) := by
  simp only [cond_all_five, is_in_IMPERATIVE, is_in_DECLARATIVE, is_in_ASSEMBLER_DIRS,
    is_in_CONDITION_CODES, is_in_REGISTERS, c_or_some, ALL_FIVE, List.mem_append,
    Bool.decide_or, Bool.or_assoc]

theorem cond_mnemonic_eq (tok : String) :
    cond_mnemonic tok = some (decide (tok ∈ ALL_BUT_IMPERATIVE)) := by
  simp only [cond_mnemonic, is_in_DECLARATIVE, is_in_ASSEMBLER_DIRS,
    is_in_CONDITION_CODES, is_in_REGISTERS, c_or_some, ALL_BUT_IMPERATIVE, List.mem_append,
    Bool.decide_or, Bool.or_assoc]

theorem cond_register_op_eq (tok : String) :
    cond_register_op tok = some (decide (tok ∈ ALL_BUT_REGISTERS)) := by
  simp only [cond_register_op, is_in_IMPERATIVE, is_in_DECLARATIVE, is_in_ASSEMBLER_DIRS,
    is_in_CONDITION_CODES, c_or_some, ALL_BUT_REGISTERS, List.mem_append,
    Bool.decide_or, Bool.or_assoc]

theorem check_decide (p : Prop) [Decidable p] (e : Emit) (st : VState) :
    check (some (decide p)) e st
      = some (if p then { out := st.out ++ [e], has_error := true } else st) := by
  by_cases h : p <;> simp [check, h]

theorem echo_loop_eq (tokens : List String) (k i : Nat) (out : List Emit)
    (h : i + k ≤ tokens.length) :
    echo_loop tokens k i out = some (out ++ ((tokens.drop i).take k).map Emit.echo) := by
  induction k generalizing i out with
  | zero => simp [echo_loop]
  | succ k ih =>
    have hi : i < tokens.length := by omega
    simp only [echo_loop, List.getElem?_eq_getElem hi]
    rw [ih (i + 1) _ (by omega), List.drop_eq_getElem_cons hi]
    simp only [List.take_succ_cons, List.map_cons, List.append_assoc, List.singleton_append]

theorem validate_statement_report_eq (line_num : Int) (tokens : List String) (st : VState) :
    validate_statement_report line_num tokens (tokens.length : Int) st
      = some (if st.has_error then st
          else { out := st.out ++ valid_block line_num tokens, has_error := false }) := by
  unfold validate_statement_report
  cases hst : st.has_error with
  | true => simp
  | false =>
    simp only [Bool.not_false, if_true, Int.toNat_ofNat]
    rw [echo_loop_eq tokens tokens.length 0 _ (by omega)]
    simp [valid_block]

/-- The 4-token branch, from the initial state. -/
theorem checks_four (n : Int) (t0 t1 t2 t3 : String) :
    validate_statement_checks n [t0, t1, t2, t3] 4 { out := [], has_error := false }
      = some
        { out :=
            (if t0 ∈ ALL_FIVE then [Emit.error n "Invalid Symbolic Name" t0] else []) ++
            (if t1 ∈ ALL_BUT_IMPERATIVE
              then [Emit.error n "Invalid Mnemonic Instruction" t1] else []) ++
            (if t2 ∈ ALL_BUT_REGISTERS
              then [Emit.error n "Invalid Register Operand" t2] else []) ++
            (if t3 ∈ ALL_FIVE
              then [Emit.error n "Invalid Symbolic Name (Memory Operand)" t3] else []),
          has_error := decide (t0 ∈ ALL_FIVE ∨ t1 ∈ ALL_BUT_IMPERATIVE ∨
            t2 ∈ ALL_BUT_REGISTERS ∨ t3 ∈ ALL_FIVE) } := by
  simp only [validate_statement_checks, if_true, List.getElem?_cons_zero,
    List.getElem?_cons_succ, cond_all_five_eq, cond_mnemonic_eq, cond_register_op_eq,
    check_decide]
  by_cases h0 : t0 ∈ ALL_FIVE <;> by_cases h1 : t1 ∈ ALL_BUT_IMPERATIVE <;>
    by_cases h2 : t2 ∈ ALL_BUT_REGISTERS <;> by_cases h3 : t3 ∈ ALL_FIVE <;>
    simp [h0, h1, h2, h3, check_decide]

/-- The 3-token branch, from the initial state. -/
theorem checks_three (n : Int) (t0 t1 t2 : String) :
    validate_statement_checks n [t0, t1, t2] 3 { out := [], has_error := false }
      = some
        { out :=
            (if t0 ∈ ALL_FIVE then [Emit.error n "Invalid Symbolic Name" t0] else []) ++
            (if t1 ∈ ALL_BUT_IMPERATIVE
              then [Emit.error n "Invalid Mnemonic Instruction" t1] else []) ++
            (if t2 ∈ ALL_FIVE
              then [Emit.error n "Invalid Symbolic Name (Memory Operand)" t2] else []),
          has_error := decide (t0 ∈ ALL_FIVE ∨ t1 ∈ ALL_BUT_IMPERATIVE ∨ t2 ∈ ALL_FIVE) } := by
  have h34 : ¬ ((3 : Int) = 4) := by decide
  simp only [validate_statement_checks, h34, if_true, if_false, List.getElem?_cons_zero,
    List.getElem?_cons_succ, cond_all_five_eq, cond_mnemonic_eq, check_decide]
  by_cases h0 : t0 ∈ ALL_FIVE <;> by_cases h1 : t1 ∈ ALL_BUT_IMPERATIVE <;>
    by_cases h2 : t2 ∈ ALL_FIVE <;>
    simp [h0, h1, h2, check_decide]

/-- The 2-token branch, from the initial state. -/
theorem checks_two (n : Int) (t0 t1 : String) :
    validate_statement_checks n [t0, t1] 2 { out := [], has_error := false }
      = some
        { out :=
            (if t0 ∈ ALL_FIVE then [Emit.error n "Invalid Symbolic Name" t0] else []) ++
            (if t1 ∈ ALL_BUT_IMPERATIVE
              then [Emit.error n "Invalid Mnemonic Instruction" t1] else []),
          has_error := decide (t0 ∈ ALL_FIVE ∨ t1 ∈ ALL_BUT_IMPERATIVE) } := by
  have h24 : ¬ ((2 : Int) = 4) := by decide
  have h23 : ¬ ((2 : Int) = 3) := by decide
  simp only [validate_statement_checks, h24, h23, if_true, if_false, List.getElem?_cons_zero,
    List.getElem?_cons_succ, cond_all_five_eq, cond_mnemonic_eq, check_decide]
  by_cases h0 : t0 ∈ ALL_FIVE <;> by_cases h1 : t1 ∈ ALL_BUT_IMPERATIVE <;>
    simp [h0, h1, check_decide]

/-- The 1-token branch, from the initial state. -/
theorem checks_one (n : Int) (t : String) :
    validate_statement_checks n [t] 1 { out := [], has_error := false }
      = some
        { out := if t = "STOP" ∨ t = "LTORG" then []
            else [Emit.error n "Invalid Mnemonic Instruction" t],
          has_error := decide (¬ (t = "STOP" ∨ t = "LTORG")) } := by
  have h14 : ¬ ((1 : Int) = 4) := by decide
  have h13 : ¬ ((1 : Int) = 3) := by decide
  have h12 : ¬ ((1 : Int) = 2) := by decide
  simp only [validate_statement_checks, h14, h13, h12, if_true, if_false,
    List.getElem?_cons_zero]
  by_cases hs : t = "STOP" <;> by_cases hl : t = "LTORG" <;> simp [hs, hl, check]

/-- No branch of the chain is taken when `token_count` is none of 4, 3, 2, 1. -/
theorem checks_other (n : Int) (tokens : List String) (token_count : Int) (st : VState)
    (h4 : token_count ≠ 4) (h3 : token_count ≠ 3) (h2 : token_count ≠ 2)
    (h1 : token_count ≠ 1) :
    validate_statement_checks n tokens token_count st = some st := by
  simp only [validate_statement_checks, h4, h3, h2, h1, if_false]

theorem run_of_checks (n : Int) (tokens : List String) (st : VState)
    (h : validate_statement_checks n tokens (tokens.length : Int)
      { out := [], has_error := false } = some st) :
    validate_statement_run n tokens (tokens.length : Int)
      = some (if st.has_error then st
          else { out := st.out ++ valid_block n tokens, has_error := false }) := by
  unfold validate_statement_run
  rw [h, Option.some_bind, validate_statement_report_eq]

theorem run_four (n : Int) (t0 t1 t2 t3 : String) :
    validate_statement_run n [t0, t1, t2, t3] 4
      = some
        { out :=
            (if t0 ∈ ALL_FIVE then [Emit.error n "Invalid Symbolic Name" t0] else []) ++
            (if t1 ∈ ALL_BUT_IMPERATIVE
              then [Emit.error n "Invalid Mnemonic Instruction" t1] else []) ++
            (if t2 ∈ ALL_BUT_REGISTERS
              then [Emit.error n "Invalid Register Operand" t2] else []) ++
            (if t3 ∈ ALL_FIVE
              then [Emit.error n "Invalid Symbolic Name (Memory Operand)" t3] else []) ++
            (if t0 ∈ ALL_FIVE ∨ t1 ∈ ALL_BUT_IMPERATIVE ∨ t2 ∈ ALL_BUT_REGISTERS ∨
                t3 ∈ ALL_FIVE then [] else valid_block n [t0, t1, t2, t3]),
          has_error := decide (t0 ∈ ALL_FIVE ∨ t1 ∈ ALL_BUT_IMPERATIVE ∨
            t2 ∈ ALL_BUT_REGISTERS ∨ t3 ∈ ALL_FIVE) } := by
  have h := run_of_checks n [t0, t1, t2, t3] _ (checks_four n t0 t1 t2 t3)
  rw [show (([t0, t1, t2, t3] : List String).length : Int) = 4 from rfl] at h
  rw [h]
  by_cases hv : t0 ∈ ALL_FIVE ∨ t1 ∈ ALL_BUT_IMPERATIVE ∨ t2 ∈ ALL_BUT_REGISTERS ∨ t3 ∈ ALL_FIVE
  · simp only [hv, decide_True, if_true, List.append_nil]
  · have hv2 := hv
    simp only [not_or] at hv2
    simp [hv2.1, hv2.2.1, hv2.2.2.1, hv2.2.2.2]

theorem run_three (n : Int) (t0 t1 t2 : String) :
    validate_statement_run n [t0, t1, t2] 3
      = some
        { out :=
            (if t0 ∈ ALL_FIVE then [Emit.error n "Invalid Symbolic Name" t0] else []) ++
            (if t1 ∈ ALL_BUT_IMPERATIVE
              then [Emit.error n "Invalid Mnemonic Instruction" t1] else []) ++
            (if t2 ∈ ALL_FIVE
              then [Emit.error n "Invalid Symbolic Name (Memory Operand)" t2] else []) ++
            (if t0 ∈ ALL_FIVE ∨ t1 ∈ ALL_BUT_IMPERATIVE ∨ t2 ∈ ALL_FIVE then []
              else valid_block n [t0, t1, t2]),
          has_error := decide (t0 ∈ ALL_FIVE ∨ t1 ∈ ALL_BUT_IMPERATIVE ∨ t2 ∈ ALL_FIVE) } := by
  have h := run_of_checks n [t0, t1, t2] _ (checks_three n t0 t1 t2)
  rw [show (([t0, t1, t2] : List String).length : Int) = 3 from rfl] at h
  rw [h]
  by_cases hv : t0 ∈ ALL_FIVE ∨ t1 ∈ ALL_BUT_IMPERATIVE ∨ t2 ∈ ALL_FIVE
  · simp only [hv, decide_True, if_true, List.append_nil]
  · have hv2 := hv
    simp only [not_or] at hv2
    simp [hv2.1, hv2.2.1, hv2.2.2]

theorem run_two (n : Int) (t0 t1 : String) :
    validate_statement_run n [t0, t1] 2
      = some
        { out :=
            (if t0 ∈ ALL_FIVE then [Emit.error n "Invalid Symbolic Name" t0] else []) ++
            (if t1 ∈ ALL_BUT_IMPERATIVE
              then [Emit.error n "Invalid Mnemonic Instruction" t1] else []) ++
            (if t0 ∈ ALL_FIVE ∨ t1 ∈ ALL_BUT_IMPERATIVE then [] else valid_block n [t0, t1]),
          has_error := decide (t0 ∈ ALL_FIVE ∨ t1 ∈ ALL_BUT_IMPERATIVE) } := by
  have h := run_of_checks n [t0, t1] _ (checks_two n t0 t1)
  rw [show (([t0, t1] : List String).length : Int) = 2 from rfl] at h
  rw [h]
  by_cases hv : t0 ∈ ALL_FIVE ∨ t1 ∈ ALL_BUT_IMPERATIVE
  · simp only [hv, decide_True, if_true, List.append_nil]
  · have hv2 := hv
    simp only [not_or] at hv2
    simp [hv2.1, hv2.2]

theorem run_one (n : Int) (t : String) :
    validate_statement_run n [t] 1
      = some
        { out := if t = "STOP" ∨ t = "LTORG" then valid_block n [t]
            else [Emit.error n "Invalid Mnemonic Instruction" t],
          has_error := decide (¬ (t = "STOP" ∨ t = "LTORG")) } := by
  have h := run_of_checks n [t] _ (checks_one n t)
  rw [show (([t] : List String).length : Int) = 1 from rfl] at h
  rw [h]
  by_cases hv : t = "STOP" ∨ t = "LTORG"
  · simp [hv]
  · simp [hv]

theorem run_other (n : Int) (tokens : List String)
    (h : tokens.length = 0 ∨ 5 ≤ tokens.length) :
    validate_statement_run n tokens (tokens.length : Int)
      = some { out := valid_block n tokens, has_error := false } := by
  have hc := checks_other n tokens (tokens.length : Int) { out := [], has_error := false }
    (by omega) (by omega) (by omega) (by omega)
  rw [run_of_checks n tokens _ hc]
  simp

/-! ## Lemmas on the tokenizer -/

theorem delims_contains (c : Char) : [' ', '\t'].contains c = is_delimiter c := by
  by_cases h1 : c = ' ' <;> by_cases h2 : c = '\t' <;> simp [is_delimiter, h1, h2]

theorem maximal_runs_nil : maximal_runs [] = [] := by
  simp [maximal_runs, List.splitOnP_nil]

theorem maximal_runs_cons_delim (c : Char) (s : List Char) (h : is_delimiter c = true) :
    maximal_runs (c :: s) = maximal_runs s := by
  simp [maximal_runs, List.splitOnP_cons, h]

theorem maximal_runs_dropWhile (s : List Char) :
    maximal_runs (s.dropWhile is_delimiter) = maximal_runs s := by
  induction s with
  | nil => rfl
  | cons c cs ih =>
    by_cases h : is_delimiter c = true
    · rw [List.dropWhile_cons_of_pos h, ih, maximal_runs_cons_delim c cs h]
    · rw [List.dropWhile_cons_of_neg h]

theorem maximal_runs_of_all_delim (s : List Char) (h : ∀ c ∈ s, is_delimiter c = true) :
    maximal_runs s = [] := by
  rw [← maximal_runs_dropWhile, List.dropWhile_eq_nil_iff.mpr h, maximal_runs_nil]

/-- A string that starts with a non-delimiter: its first run is its longest
delimiter-free prefix, and the other runs are those of what follows. -/
theorem maximal_runs_cons_word (c : Char) (cs : List Char) (h : ¬ is_delimiter c = true) :
    maximal_runs (c :: cs)
      = (c :: cs).takeWhile (fun x => !is_delimiter x)
        :: maximal_runs (((c :: cs).dropWhile (fun x => !is_delimiter x)).drop 1) := by
  have hsplit := List.takeWhile_append_dropWhile (fun x => !is_delimiter x) (c :: cs)
  have htw : ∀ x ∈ (c :: cs).takeWhile (fun x => !is_delimiter x), ¬ is_delimiter x = true := by
    intro x hx
    have := List.mem_takeWhile_imp hx
    simpa using this
  have hne : (c :: cs).takeWhile (fun x => !is_delimiter x) ≠ [] := by
    rw [List.takeWhile_cons_of_pos (by simpa using h)]
    exact List.cons_ne_nil _ _
  cases hdw : (c :: cs).dropWhile (fun x => !is_delimiter x) with
  | nil =>
    rw [hdw, List.append_nil] at hsplit
    rw [hsplit] at htw hne ⊢
    simp only [List.drop_nil, maximal_runs_nil]
    unfold maximal_runs
    rw [List.splitOnP_eq_single is_delimiter (c :: cs) htw]
    simp
  | cons d rest =>
    have hd : is_delimiter d = true := by
      have h0 := List.head_dropWhile_not (fun x => !is_delimiter x) (c :: cs)
        (by rw [hdw]; exact List.cons_ne_nil _ _)
      simp only [hdw, List.head_cons] at h0
      simpa using h0
    rw [hdw] at hsplit
    simp only [List.drop_succ_cons, List.drop_zero]
    conv_lhs => rw [← hsplit]
    unfold maximal_runs
    rw [List.splitOnP_first is_delimiter _ htw d hd rest]
    rw [List.filter_cons_of_pos]
    cases hq : (c :: cs).takeWhile (fun x => !is_delimiter x) with
    | nil => exact absurd hq hne
    | cons a as => rfl

theorem strtok_none (s : List Char) (h : strtok s [' ', '\t'] = none) : maximal_runs s = [] := by
  unfold strtok at h
  simp only [delims_contains] at h
  cases hd : s.dropWhile is_delimiter with
  | nil => rw [← maximal_runs_dropWhile, hd, maximal_runs_nil]
  | cons c cs =>
    rw [hd] at h
    simp only at h
    split at h <;> cases h

theorem strtok_some (s tok rest : List Char) (h : strtok s [' ', '\t'] = some (tok, rest)) :
    maximal_runs s = tok :: maximal_runs rest := by
  unfold strtok at h
  simp only [delims_contains] at h
  cases hd : s.dropWhile is_delimiter with
  | nil => rw [hd] at h; cases h
  | cons c cs =>
    rw [hd] at h
    simp only at h
    have hc : ¬ is_delimiter c = true := by
      have h0 := List.head_dropWhile_not is_delimiter s (by rw [hd]; exact List.cons_ne_nil _ _)
      simp only [hd, List.head_cons] at h0
      simp [h0]
    rw [← maximal_runs_dropWhile, hd, maximal_runs_cons_word c cs hc]
    cases hdw : (c :: cs).dropWhile (fun x => !is_delimiter x) with
    | nil =>
      rw [hdw] at h
      simp only [Option.some.injEq, Prod.mk.injEq] at h
      rw [← h.1, ← h.2]
      rfl
    | cons d r =>
      rw [hdw] at h
      simp only [Option.some.injEq, Prod.mk.injEq] at h
      rw [← h.1, ← h.2]
      rfl

theorem pending_call_strtok (s : List Char) (tokens : List String) (token_count : Nat) :
    pending (call_strtok s tokens token_count) = maximal_runs s := by
  unfold call_strtok pending
  cases h : strtok s [' ', '\t'] with
  | none => simp [strtok_none s h]
  | some p =>
    obtain ⟨tok, rest⟩ := p
    simp [strtok_some s tok rest h]

theorem store_token_append (tokens : List String) (token : String) (h : tokens.length < 10) :
    store_token tokens tokens.length token = some (tokens ++ [token]) := by
  simp [store_token, h]

/-- The loop of `process_tokens` never faults, appends the pending words up to
the capacity of the array, and with enough fuel is left by its own condition. -/
theorem process_tokens_loop_spec (fuel : Nat) (st : TState)
    (hlen : st.tokens.length = st.token_count) :
    ∃ st2, process_tokens_loop fuel st = some st2 ∧
      st2.tokens = st.tokens ++
        ((pending st).take (min fuel (10 - st.token_count))).map String.mk ∧
      st2.tokens.length = st2.token_count ∧
      (10 - st.token_count ≤ fuel → st2.token = none ∨ ¬ st2.token_count < 10) := by
  induction fuel generalizing st with
  | zero =>
    refine ⟨st, rfl, by simp, hlen, ?_⟩
    intro h
    right
    omega
  | succ fuel ih =>
    unfold process_tokens_loop
    cases htok : st.token with
    | none =>
      refine ⟨st, rfl, by simp [pending, htok], hlen, ?_⟩
      intro _
      exact Or.inl htok
    | some tok =>
      simp only
      by_cases hc : st.token_count < 10
      · rw [if_pos hc, ← hlen, store_token_append st.tokens (String.mk tok) (by omega)]
        simp only
        obtain ⟨st2, h1, h2, h3, h4⟩ :=
          ih (call_strtok st.save (st.tokens ++ [String.mk tok]) (st.tokens.length + 1))
            (by simp [call_strtok]; split <;> simp)
        refine ⟨st2, h1, ?_, h3, ?_⟩
        · rw [h2, pending_call_strtok]
          have hts : (call_strtok st.save (st.tokens ++ [String.mk tok])
              (st.tokens.length + 1)).tokens = st.tokens ++ [String.mk tok] := by
            unfold call_strtok; split <;> rfl
          have htc : (call_strtok st.save (st.tokens ++ [String.mk tok])
              (st.tokens.length + 1)).token_count = st.tokens.length + 1 := by
            unfold call_strtok; split <;> rfl
          rw [hts, htc]
          have hmin : min (fuel + 1) (10 - st.tokens.length)
              = min fuel (10 - (st.tokens.length + 1)) + 1 := by omega
          rw [hmin]
          simp [pending, htok]
        · intro hf
          apply h4
          have htc : (call_strtok st.save (st.tokens ++ [String.mk tok])
              (st.tokens.length + 1)).token_count = st.tokens.length + 1 := by
            unfold call_strtok; split <;> rfl
          rw [htc]
          omega
      · rw [if_neg hc]
        refine ⟨st, rfl, ?_, hlen, ?_⟩
        · have : 10 - st.token_count = 0 := by omega
          simp [this]
        · intro _
          exact Or.inr hc

theorem process_tokens_scan_spec (line : String) :
    ∃ st, process_tokens_scan line = some st ∧
      st.tokens = (words line).take 10 ∧
      st.tokens.length = st.token_count ∧
      (st.token = none ∨ ¬ st.token_count < 10) := by
  obtain ⟨st, h1, h2, h3, h4⟩ := process_tokens_loop_spec 10 (call_strtok line.toList [] 0)
    (by unfold call_strtok; split <;> rfl)
  have htc : (call_strtok line.toList [] 0).token_count = 0 := by
    unfold call_strtok; split <;> rfl
  have hts : (call_strtok line.toList [] 0).tokens = [] := by
    unfold call_strtok; split <;> rfl
  refine ⟨st, h1, ?_, h3, h4 (by omega)⟩
  rw [h2, hts, htc, pending_call_strtok]
  simp [words, List.map_take]

theorem process_tokens_eq (n : Int) (line : String) :
    process_tokens n line
      = validate_statement n ((words line).take 10) (((words line).take 10).length : Int) := by
  obtain ⟨st, h1, h2, h3, -⟩ := process_tokens_scan_spec line
  unfold process_tokens
  rw [h1, Option.some_bind, ← h3, h2]

/-- The pieces between delimiters hold no delimiter. -/
theorem splitOnP_no_delim (s : List Char) :
    ∀ r ∈ s.splitOnP is_delimiter, ∀ c ∈ r, ¬ is_delimiter c = true := by
  induction s with
  | nil => simp [List.splitOnP_nil]
  | cons x xs ih =>
    rw [List.splitOnP_cons]
    by_cases hx : is_delimiter x = true
    · rw [if_pos hx]
      intro r hr
      rcases List.mem_cons.mp hr with h | h
      · subst h; simp
      · exact ih r h
    · rw [if_neg hx]
      cases hs : xs.splitOnP is_delimiter with
      | nil => simp [List.modifyHead]
      | cons a as =>
        rw [hs] at ih
        simp only [List.modifyHead]
        intro r hr
        rcases List.mem_cons.mp hr with h | h
        · subst h
          intro c hc
          rcases List.mem_cons.mp hc with h2 | h2
          · subst h2; exact hx
          · exact ih a (List.mem_cons_self _ _) c h2
        · exact ih r (List.mem_cons_of_mem _ h)

theorem maximal_runs_mem (s r : List Char) (h : r ∈ maximal_runs s) :
    r ≠ [] ∧ ∀ c ∈ r, ¬ is_delimiter c = true := by
  unfold maximal_runs at h
  rw [List.mem_filter] at h
  refine ⟨?_, splitOnP_no_delim s r h.1⟩
  intro hr
  subst hr
  simp at h

theorem words_mem (line t : String) (h : t ∈ words line) :
    t ≠ "" ∧ ' ' ∉ t.toList ∧ '\t' ∉ t.toList := by
  unfold words at h
  rw [List.mem_map] at h
  obtain ⟨r, hr, rfl⟩ := h
  obtain ⟨h1, h2⟩ := maximal_runs_mem _ r hr
  refine ⟨?_, ?_, ?_⟩
  · intro hc
    apply h1
    have := congrArg String.data hc
    simpa using this
  · intro hc
    exact h2 ' ' hc (by decide)
  · intro hc
    exact h2 '\t' hc (by decide)

/-- The characters of the report of a Valid statement. -/
theorem stdout_text_valid_block (n : Int) (tokens : List String) :
    stdout_text (valid_block n tokens)
      = "[VALID] Line " ++ toString n ++ ": "
        ++ String.join (tokens.map fun t => t ++ " ") ++ "\n" := by
  apply String.ext
  simp [stdout_text, valid_block, Emit.text, String.data_join, Function.comp_def]

/-! ## The claims -/

/-- C1: for every line, the loop of `process_tokens` runs to its end without a
fault and is left by its own condition; the tokens it hands to
`validate_statement` are the first 10 maximal non-empty runs of characters
other than space and tab, in order, with `token_count` their number; every
token is non-empty and holds neither a space nor a tab. -/
theorem process_tokens_first_ten_runs (line : String) :
    ∃ st, process_tokens_scan line = some st ∧
      (st.token = none ∨ ¬ st.token_count < 10) ∧
      st.tokens = (words line).take 10 ∧
      st.token_count = st.tokens.length ∧
      (∀ n : Int, process_tokens n line
        = validate_statement n ((words line).take 10) (((words line).take 10).length : Int)) ∧
      ∀ t ∈ st.tokens, t ≠ "" ∧ ' ' ∉ t.toList ∧ '\t' ∉ t.toList := by
  obtain ⟨st, h1, h2, h3, h4⟩ := process_tokens_scan_spec line
  refine ⟨st, h1, h4, h2, h3.symm, fun n => process_tokens_eq n line, ?_⟩
  intro t ht
  rw [h2] at ht
  exact words_mem line t (List.mem_of_mem_take ht)

/-- C2: a 4-token statement prints, in this order, the label error iff `t0` is
in one of the five categories, the mnemonic error iff `t1` is in one of the four
categories other than Imperative, the register-operand error iff `t2` is in one
of the four categories other than Registers, the memory-operand error iff `t3`
is in one of the five categories, and the `[VALID]` block iff none of the four
holds; `has_error` is set iff one of them holds.  `LOOP ADD AREG DATA1` is
Valid. -/
theorem validate_statement_four_tokens (n : Int) (t0 t1 t2 t3 : String) :
    validate_statement n [t0, t1, t2, t3] 4
      = some (
        (if t0 ∈ ALL_FIVE then [Emit.error n "Invalid Symbolic Name" t0] else []) ++
        (if t1 ∈ ALL_BUT_IMPERATIVE
          then [Emit.error n "Invalid Mnemonic Instruction" t1] else []) ++
        (if t2 ∈ ALL_BUT_REGISTERS
          then [Emit.error n "Invalid Register Operand" t2] else []) ++
        (if t3 ∈ ALL_FIVE
          then [Emit.error n "Invalid Symbolic Name (Memory Operand)" t3] else []) ++
        (if t0 ∈ ALL_FIVE ∨ t1 ∈ ALL_BUT_IMPERATIVE ∨ t2 ∈ ALL_BUT_REGISTERS ∨ t3 ∈ ALL_FIVE
          then [] else valid_block n [t0, t1, t2, t3])) ∧
    (validate_statement_run n [t0, t1, t2, t3] 4).map VState.has_error
      = some (decide (t0 ∈ ALL_FIVE ∨ t1 ∈ ALL_BUT_IMPERATIVE ∨ t2 ∈ ALL_BUT_REGISTERS ∨
          t3 ∈ ALL_FIVE)) ∧
    (Emit.error n "Invalid Symbolic Name" t0).text
      = "Error (Line " ++ toString n ++ "): Invalid Symbolic Name '" ++ t0 ++ "'\n" ∧
    (Emit.error n "Invalid Mnemonic Instruction" t1).text
      = "Error (Line " ++ toString n ++ "): Invalid Mnemonic Instruction '" ++ t1 ++ "'\n" ∧
    (Emit.error n "Invalid Register Operand" t2).text
      = "Error (Line " ++ toString n ++ "): Invalid Register Operand '" ++ t2 ++ "'\n" ∧
    (Emit.error n "Invalid Symbolic Name (Memory Operand)" t3).text
      = "Error (Line " ++ toString n ++ "): Invalid Symbolic Name (Memory Operand) '"
        ++ t3 ++ "'\n" ∧
    process_tokens n "LOOP ADD AREG DATA1"
      = some (valid_block n ["LOOP", "ADD", "AREG", "DATA1"]) ∧
    stdout_text (valid_block n ["LOOP", "ADD", "AREG", "DATA1"])
      = "[VALID] Line " ++ toString n ++ ": LOOP ADD AREG DATA1 \n" := by
  refine ⟨?_, ?_, ?_, ?_, ?_, ?_, rfl, ?_⟩
  · simp only [validate_statement, run_four, Option.map_some']
  · simp only [run_four, Option.map_some']
  all_goals
    apply String.ext
    simp only [stdout_text, valid_block, Emit.text, String.data_join, String.data_append,
      List.map, List.flatten, List.append_assoc, List.cons_append, List.nil_append,
      List.append_nil]
    try rfl

/-- C3: a 3-token statement prints, in this order, the label error iff `t0` is
in one of the five categories, the mnemonic error iff `t1` is in one of the four
categories other than Imperative, the memory-operand error iff `t2` is in one of
the five categories, and the `[VALID]` block iff none holds.  The line
`ADD AREG BREG` prints exactly the three errors, quoting ADD, AREG and BREG. -/
theorem validate_statement_three_tokens (n : Int) (t0 t1 t2 : String) :
    validate_statement n [t0, t1, t2] 3
      = some (
        (if t0 ∈ ALL_FIVE then [Emit.error n "Invalid Symbolic Name" t0] else []) ++
        (if t1 ∈ ALL_BUT_IMPERATIVE
          then [Emit.error n "Invalid Mnemonic Instruction" t1] else []) ++
        (if t2 ∈ ALL_FIVE
          then [Emit.error n "Invalid Symbolic Name (Memory Operand)" t2] else []) ++
        (if t0 ∈ ALL_FIVE ∨ t1 ∈ ALL_BUT_IMPERATIVE ∨ t2 ∈ ALL_FIVE
          then [] else valid_block n [t0, t1, t2])) ∧
    (validate_statement_run n [t0, t1, t2] 3).map VState.has_error
      = some (decide (t0 ∈ ALL_FIVE ∨ t1 ∈ ALL_BUT_IMPERATIVE ∨ t2 ∈ ALL_FIVE)) ∧
    process_tokens n "ADD AREG BREG"
      = some [Emit.error n "Invalid Symbolic Name" "ADD",
          Emit.error n "Invalid Mnemonic Instruction" "AREG",
          Emit.error n "Invalid Symbolic Name (Memory Operand)" "BREG"] ∧
    stdout_text [Emit.error n "Invalid Symbolic Name" "ADD",
          Emit.error n "Invalid Mnemonic Instruction" "AREG",
          Emit.error n "Invalid Symbolic Name (Memory Operand)" "BREG"]
      = "Error (Line " ++ toString n ++ "): Invalid Symbolic Name 'ADD'\n" ++
        "Error (Line " ++ toString n ++ "): Invalid Mnemonic Instruction 'AREG'\n" ++
        "Error (Line " ++ toString n ++ "): Invalid Symbolic Name (Memory Operand) 'BREG'\n" := by
  refine ⟨?_, ?_, rfl, ?_⟩
  · simp only [validate_statement, run_three, Option.map_some']
  · simp only [run_three, Option.map_some']
  · apply String.ext
    simp only [stdout_text, Emit.text, String.data_join, String.data_append,
      List.map, List.flatten, List.append_assoc, List.cons_append, List.nil_append,
      List.append_nil]
    try rfl

/-- C4: a 2-token statement prints, in this order, the label error iff `t0` is
in one of the five categories, the mnemonic error iff `t1` is in one of the four
categories other than Imperative, and the `[VALID]` block iff neither holds.
The checks of a 3- or 4-token statement starting with `t0`, `t1` print the same
lines for these two slots, before those of the later slots. -/
theorem validate_statement_two_tokens (n : Int) (t0 t1 : String) :
    validate_statement n [t0, t1] 2
      = some (
        (if t0 ∈ ALL_FIVE then [Emit.error n "Invalid Symbolic Name" t0] else []) ++
        (if t1 ∈ ALL_BUT_IMPERATIVE
          then [Emit.error n "Invalid Mnemonic Instruction" t1] else []) ++
        (if t0 ∈ ALL_FIVE ∨ t1 ∈ ALL_BUT_IMPERATIVE then [] else valid_block n [t0, t1])) ∧
    (validate_statement_run n [t0, t1] 2).map VState.has_error
      = some (decide (t0 ∈ ALL_FIVE ∨ t1 ∈ ALL_BUT_IMPERATIVE)) ∧
    ∃ st2, validate_statement_checks n [t0, t1] 2 { out := [], has_error := false } = some st2 ∧
      (∀ t2 : String, ∃ st3,
        validate_statement_checks n [t0, t1, t2] 3 { out := [], has_error := false }
          = some st3 ∧
        st3.out = st2.out ++
          (if t2 ∈ ALL_FIVE
            then [Emit.error n "Invalid Symbolic Name (Memory Operand)" t2] else [])) ∧
      (∀ t2 t3 : String, ∃ st4,
        validate_statement_checks n [t0, t1, t2, t3] 4 { out := [], has_error := false }
          = some st4 ∧
        st4.out = st2.out ++
          (if t2 ∈ ALL_BUT_REGISTERS
            then [Emit.error n "Invalid Register Operand" t2] else []) ++
          (if t3 ∈ ALL_FIVE
            then [Emit.error n "Invalid Symbolic Name (Memory Operand)" t3] else [])) := by
  refine ⟨?_, ?_, _, checks_two n t0 t1, ?_, ?_⟩
  · simp only [validate_statement, run_two, Option.map_some']
  · simp only [run_two, Option.map_some']
  · intro t2
    exact ⟨_, checks_three n t0 t1 t2, rfl⟩
  · intro t2 t3
    exact ⟨_, checks_four n t0 t1 t2 t3, rfl⟩

/-- C5: a 1-token statement is Valid iff its token is exactly `STOP` or exactly
`LTORG`; for any other token it prints exactly one line
`Error (Line n): Invalid Mnemonic Instruction 't'` and no `[VALID]` line.
`STOP` is Valid, `HALT` is Invalid. -/
theorem validate_statement_one_token (n : Int) (t : String) :
    validate_statement n [t] 1
      = some (if t = "STOP" ∨ t = "LTORG" then valid_block n [t]
          else [Emit.error n "Invalid Mnemonic Instruction" t]) ∧
    (validate_statement_run n [t] 1).map VState.has_error
      = some (decide (¬ (t = "STOP" ∨ t = "LTORG"))) ∧
    (Emit.error n "Invalid Mnemonic Instruction" t).text
      = "Error (Line " ++ toString n ++ "): Invalid Mnemonic Instruction '" ++ t ++ "'\n" ∧
    process_tokens n "STOP" = some (valid_block n ["STOP"]) ∧
    process_tokens n "LTORG" = some (valid_block n ["LTORG"]) ∧
    process_tokens n "HALT" = some [Emit.error n "Invalid Mnemonic Instruction" "HALT"] := by
  refine ⟨?_, ?_, ?_, rfl, rfl, rfl⟩
  · simp only [validate_statement, run_one, Option.map_some']
  · simp only [run_one, Option.map_some']
  · apply String.ext
    simp only [Emit.text, String.data_append, List.append_assoc]
    try rfl

/-! ## The report against the rule table -/

theorem run_eq_rule_table (n : Int) (tokens : List String) :
    validate_statement_run n tokens (tokens.length : Int)
      = some { out := if (violated_slots tokens).isEmpty then valid_block n tokens
                 else error_lines n tokens,
               has_error := !(violated_slots tokens).isEmpty } := by
  match tokens with
  | [] => rw [run_other n [] (Or.inl rfl)]; rfl
  | [t] =>
    rw [show ((([t] : List String).length : Nat) : Int) = 1 from rfl, run_one]
    by_cases hs : t = "STOP" <;> by_cases hl : t = "LTORG" <;>
      simp [violated_slots, error_lines, rule_table, hs, hl]
  | [t0, t1] =>
    rw [show ((([t0, t1] : List String).length : Nat) : Int) = 2 from rfl, run_two]
    by_cases h0 : t0 ∈ ALL_FIVE <;> by_cases h1 : t1 ∈ ALL_BUT_IMPERATIVE <;>
      simp [violated_slots, error_lines, rule_table, h0, h1]
  | [t0, t1, t2] =>
    rw [show ((([t0, t1, t2] : List String).length : Nat) : Int) = 3 from rfl, run_three]
    by_cases h0 : t0 ∈ ALL_FIVE <;> by_cases h1 : t1 ∈ ALL_BUT_IMPERATIVE <;>
      by_cases h2 : t2 ∈ ALL_FIVE <;>
      simp [violated_slots, error_lines, rule_table, h0, h1, h2]
  | [t0, t1, t2, t3] =>
    rw [show ((([t0, t1, t2, t3] : List String).length : Nat) : Int) = 4 from rfl, run_four]
    by_cases h0 : t0 ∈ ALL_FIVE <;> by_cases h1 : t1 ∈ ALL_BUT_IMPERATIVE <;>
      by_cases h2 : t2 ∈ ALL_BUT_REGISTERS <;> by_cases h3 : t3 ∈ ALL_FIVE <;>
      simp [violated_slots, error_lines, rule_table, h0, h1, h2, h3]
  | t0 :: t1 :: t2 :: t3 :: t4 :: rest =>
    rw [run_other n _ (Or.inr (by simp))]
    have hv : violated_slots (t0 :: t1 :: t2 :: t3 :: t4 :: rest) = [] := by
      simp [violated_slots, rule_table]
    simp [hv]

theorem rule_table_slots_increasing (count : Nat) :
    List.Pairwise (fun a b => a < b) ((rule_table count).map SlotRule.slot) := by
  unfold rule_table
  split_ifs <;> simp

theorem violated_slots_mem (tokens : List String) (p : SlotRule × String)
    (h : p ∈ violated_slots tokens) :
    p.1 ∈ rule_table tokens.length ∧ tokens[p.1.slot]? = some p.2 ∧ p.1.forbidden p.2 = true := by
  unfold violated_slots at h
  rw [List.mem_filterMap] at h
  obtain ⟨r, hr, hp⟩ := h
  cases ht : tokens[r.slot]? with
  | none => rw [ht] at hp; cases hp
  | some t =>
    rw [ht] at hp
    by_cases hf : r.forbidden t = true
    · simp only [hf, if_true, Option.some.injEq] at hp
      subst hp
      exact ⟨hr, ht, hf⟩
    · simp only [hf] at hp
      cases hp

theorem violated_slots_increasing (tokens : List String) :
    List.Pairwise (fun a b => a < b) ((violated_slots tokens).map fun p => p.1.slot) := by
  have hsub : List.Sublist ((violated_slots tokens).map fun p => p.1.slot)
      ((rule_table tokens.length).map SlotRule.slot) := by
    unfold violated_slots
    induction rule_table tokens.length with
    | nil => simp
    | cons r rs ih =>
      rw [List.filterMap_cons]
      cases ht : tokens[r.slot]? with
      | none => simpa using ih.cons r.slot
      | some t =>
        by_cases hf : r.forbidden t = true
        · simpa [hf] using ih.cons₂ r.slot
        · simpa [hf] using ih.cons r.slot
  exact (rule_table_slots_increasing tokens.length).sublist hsub

theorem forbidden_reserved (count : Nat) (r : SlotRule) (t : String) (hc : count ≠ 1)
    (hr : r ∈ rule_table count) (hf : r.forbidden t = true) : t ∈ ALL_FIVE := by
  have h1 : t ∈ ALL_BUT_IMPERATIVE → t ∈ ALL_FIVE := by
    simp only [ALL_BUT_IMPERATIVE, ALL_FIVE, List.mem_append]
    tauto
  have h2 : t ∈ ALL_BUT_REGISTERS → t ∈ ALL_FIVE := by
    simp only [ALL_BUT_REGISTERS, ALL_FIVE, List.mem_append]
    tauto
  unfold rule_table at hr
  split_ifs at hr with c4 c3 c2
  · simp only [List.mem_cons, List.mem_singleton, List.not_mem_nil, or_false] at hr
    rcases hr with rfl | rfl | rfl | rfl <;> simp only [decide_eq_true_eq] at hf <;>
      first | exact hf | exact h1 hf | exact h2 hf
  · simp only [List.mem_cons, List.mem_singleton, List.not_mem_nil, or_false] at hr
    rcases hr with rfl | rfl | rfl <;> simp only [decide_eq_true_eq] at hf <;>
      first | exact hf | exact h1 hf
  · simp only [List.mem_cons, List.mem_singleton, List.not_mem_nil, or_false] at hr
    rcases hr with rfl | rfl <;> simp only [decide_eq_true_eq] at hf <;>
      first | exact hf | exact h1 hf
  · cases hr

theorem validate_statement_other (n : Int) (tokens : List String)
    (h : tokens.length = 0 ∨ 5 ≤ tokens.length) :
    validate_statement n tokens (tokens.length : Int) = some (valid_block n tokens) := by
  simp only [validate_statement, run_other n tokens h, Option.map_some']

theorem words_of_blank (line : String) (h : ∀ c ∈ line.toList, c = ' ' ∨ c = '\t') :
    words line = [] := by
  unfold words
  rw [maximal_runs_of_all_delim]
  · rfl
  · intro c hc
    rcases h c hc with rfl | rfl <;> decide

theorem error_text (n : Int) (msg t : String) :
    (Emit.error n msg t).text
      = "Error (Line " ++ toString n ++ "): " ++ msg ++ " '" ++ t ++ "'\n" := rfl

/-- C6: for every statement, `validate_statement` prints either the `[VALID]`
block (when no slot of the rule table is violated) or one `Error` line per
violated slot, in increasing slot order, each quoting the token of its slot, and
then no `[VALID]` line; it never prints nothing, and the number of `Error` lines
is the number of violated slots. -/
theorem validate_statement_one_report (n : Int) (tokens : List String) :
    ∃ out, validate_statement n tokens (tokens.length : Int) = some out ∧
      out = (if (violated_slots tokens).isEmpty then valid_block n tokens
        else error_lines n tokens) ∧
      out ≠ [] ∧
      (Emit.valid_head n ∈ out ↔ violated_slots tokens = []) ∧
      ((∃ e ∈ out, e.is_error = true) ↔ violated_slots tokens ≠ []) ∧
      out.countP Emit.is_error = (violated_slots tokens).length ∧
      (∀ p ∈ violated_slots tokens, p.1 ∈ rule_table tokens.length ∧
        tokens[p.1.slot]? = some p.2 ∧ p.1.forbidden p.2 = true) ∧
      List.Pairwise (fun a b => a < b) ((violated_slots tokens).map fun p => p.1.slot) ∧
      stdout_text (valid_block n tokens)
        = "[VALID] Line " ++ toString n ++ ": "
          ++ String.join (tokens.map fun t => t ++ " ") ++ "\n" ∧
      ∀ msg t : String, (Emit.error n msg t).text
        = "Error (Line " ++ toString n ++ "): " ++ msg ++ " '" ++ t ++ "'\n" := by
  refine ⟨_, by rw [validate_statement, run_eq_rule_table]; rfl, rfl, ?_, ?_, ?_, ?_,
    violated_slots_mem tokens, violated_slots_increasing tokens,
    stdout_text_valid_block n tokens, error_text n⟩
  · cases hv : violated_slots tokens with
    | nil => simp [valid_block]
    | cons p ps => simp [error_lines, hv]
  · cases hv : violated_slots tokens with
    | nil => simp [valid_block]
    | cons p ps => simp [error_lines, hv]
  · cases hv : violated_slots tokens with
    | nil =>
      simp only [List.isEmpty_nil, if_true, ne_eq, not_true_eq_false, iff_false, not_exists,
        not_and, valid_block, List.mem_cons, List.mem_append, List.mem_map,
        List.mem_singleton, List.not_mem_nil, or_false]
      intro e he
      rcases he with rfl | ⟨t, -, rfl⟩ | rfl <;> simp [Emit.is_error]
    | cons p ps => simp [error_lines, hv, Emit.is_error]
  · cases hv : violated_slots tokens with
    | nil =>
      simp only [List.isEmpty_nil, if_true, List.length_nil]
      rw [List.countP_eq_zero]
      intro e he
      simp only [valid_block, List.mem_cons, List.mem_append, List.mem_map,
        List.mem_singleton, List.not_mem_nil, or_false] at he
      rcases he with rfl | ⟨t, -, rfl⟩ | rfl <;> simp [Emit.is_error]
    | cons p ps =>
      simp only [List.isEmpty_cons, Bool.false_eq_true, if_false, error_lines, hv]
      rw [List.countP_eq_length.mpr, List.length_map]
      intro e he
      rw [List.mem_map] at he
      obtain ⟨q, -, rfl⟩ := he
      rfl

/-- C7: a statement of 0 or of at least 5 tokens records no violation and is
reported Valid whatever its tokens are; a blank or whitespace-only line prints
exactly `[VALID] Line n: ` and a newline, and `ADD ADD ADD ADD ADD` prints its
`[VALID]` line and no `Error` line. -/
theorem validate_statement_unmatched_count (n : Int) (tokens : List String)
    (h : tokens.length = 0 ∨ 5 ≤ tokens.length) :
    validate_statement n tokens (tokens.length : Int) = some (valid_block n tokens) ∧
    validate_statement_checks n tokens (tokens.length : Int) { out := [], has_error := false }
      = some { out := [], has_error := false } ∧
    (validate_statement_run n tokens (tokens.length : Int)).map VState.has_error = some false ∧
    (∀ line : String, (∀ c ∈ line.toList, c = ' ' ∨ c = '\t') →
      process_tokens n line = some (valid_block n [])) ∧
    stdout_text (valid_block n []) = "[VALID] Line " ++ toString n ++ ": \n" ∧
    process_tokens n "ADD ADD ADD ADD ADD"
      = some (valid_block n ["ADD", "ADD", "ADD", "ADD", "ADD"]) ∧
    stdout_text (valid_block n ["ADD", "ADD", "ADD", "ADD", "ADD"])
      = "[VALID] Line " ++ toString n ++ ": ADD ADD ADD ADD ADD \n" := by
  refine ⟨validate_statement_other n tokens h, ?_, ?_, ?_, ?_, rfl, ?_⟩
  · exact checks_other n tokens _ _ (by omega) (by omega) (by omega) (by omega)
  · simp only [run_other n tokens h, Option.map_some']
  · intro line hl
    rw [process_tokens_eq, words_of_blank line hl]
    exact validate_statement_other n [] (Or.inl rfl)
  all_goals
    apply String.ext
    simp only [stdout_text, valid_block, Emit.text, String.data_join, String.data_append,
      List.map, List.flatten, List.append_assoc, List.cons_append, List.nil_append,
      List.append_nil]
    try rfl

theorem validate_statement_unmatched_count_witness :
    (5 ≤ (["BC", "DS", "END", "LT", "AREG", "x"] : List String).length) ∧
    validate_statement 7 ["BC", "DS", "END", "LT", "AREG", "x"] 6
      = some (valid_block 7 ["BC", "DS", "END", "LT", "AREG", "x"]) :=
  ⟨by decide,
    (validate_statement_unmatched_count 7 ["BC", "DS", "END", "LT", "AREG", "x"]
      (Or.inr (by decide))).1⟩

/-- C8: for a line of 11 or more words, `process_tokens` hands exactly the
first 10 words to `validate_statement` with `token_count` 10, no branch of the
rule chain is taken, and the output is exactly the one `[VALID]` line echoing
those 10 words; the output is the same for every line with the same first 10
words. -/
theorem process_tokens_eleven_words (n : Int) (line : String)
    (h : 11 ≤ (words line).length) :
    ∃ st, process_tokens_scan line = some st ∧
      st.token_count = 10 ∧
      st.tokens = (words line).take 10 ∧
      validate_statement_checks n st.tokens (st.token_count : Int)
        { out := [], has_error := false } = some { out := [], has_error := false } ∧
      process_tokens n line = some (valid_block n ((words line).take 10)) ∧
      stdout_text (valid_block n ((words line).take 10))
        = "[VALID] Line " ++ toString n ++ ": "
          ++ String.join (((words line).take 10).map fun t => t ++ " ") ++ "\n" ∧
      ∀ line2 : String, (words line2).take 10 = (words line).take 10 →
        process_tokens n line2 = process_tokens n line := by
  obtain ⟨st, h1, h2, h3, -⟩ := process_tokens_scan_spec line
  have hlen : ((words line).take 10).length = 10 := by
    rw [List.length_take]; omega
  have hc : st.token_count = 10 := by rw [← h3, h2, hlen]
  refine ⟨st, h1, hc, h2, ?_, ?_, stdout_text_valid_block n _, ?_⟩
  · rw [hc]
    exact checks_other n st.tokens _ _ (by decide) (by decide) (by decide) (by decide)
  · rw [process_tokens_eq]
    exact validate_statement_other n _ (Or.inr (by omega))
  · intro line2 h2
    rw [process_tokens_eq, process_tokens_eq, h2]

theorem process_tokens_eleven_words_witness :
    (11 ≤ (words "L1 ADD AREG X  5 6\t7 8 9 10 STOP END").length) ∧
    ∃ st, process_tokens_scan "L1 ADD AREG X  5 6\t7 8 9 10 STOP END" = some st ∧
      st.token_count = 10 ∧
      process_tokens 3 "L1 ADD AREG X  5 6\t7 8 9 10 STOP END"
        = some (valid_block 3 ["L1", "ADD", "AREG", "X", "5", "6", "7", "8", "9", "10"]) := by
  refine ⟨by decide, ?_⟩
  obtain ⟨st, h1, h2, -, -, h5, -, -⟩ :=
    process_tokens_eleven_words 3 "L1 ADD AREG X  5 6\t7 8 9 10 STOP END" (by decide)
  exact ⟨st, h1, h2, by rw [h5]; rfl⟩

/-- C9, as the code has it: in every statement whose token count is not 1, a
token that is not itself a reserved word (so also one that differs from a
reserved word only in letter case) is never quoted by an `Error` line; a 1-token
statement is tested for exact equality with `STOP` or `LTORG`, and any other
token is flagged. -/
theorem unreserved_token_never_flagged (n : Int) (tokens : List String)
    (h : tokens.length ≠ 1) :
    ∃ out, validate_statement n tokens (tokens.length : Int) = some out ∧
      (∀ (m : Int) (msg t : String), Emit.error m msg t ∈ out → t ∈ ALL_FIVE) ∧
      ∀ t : String, validate_statement n [t] 1
        = some (if t = "STOP" ∨ t = "LTORG" then valid_block n [t]
            else [Emit.error n "Invalid Mnemonic Instruction" t]) := by
  refine ⟨_, by rw [validate_statement, run_eq_rule_table]; rfl, ?_, ?_⟩
  · intro m msg t he
    simp only at he
    cases hv : violated_slots tokens with
    | nil =>
      simp only [hv, List.isEmpty_nil, if_true, valid_block, List.mem_cons, List.mem_append,
        List.mem_map, List.mem_singleton, List.not_mem_nil, or_false] at he
      rcases he with he | ⟨u, -, he⟩ | he <;> cases he
    | cons p ps =>
      simp only [hv, List.isEmpty_cons, Bool.false_eq_true, if_false, error_lines] at he
      rw [← hv, List.mem_map] at he
      obtain ⟨q, hq, he⟩ := he
      obtain ⟨hq1, -, hq3⟩ := violated_slots_mem tokens q hq
      cases he
      exact forbidden_reserved tokens.length q.1 q.2 h hq1 hq3
  · intro t
    simp only [validate_statement, run_one, Option.map_some']

theorem unreserved_token_never_flagged_witness :
    ((["stop", "add", "areg", "ltorg"] : List String).length ≠ 1) ∧
    ∃ out, validate_statement 1 ["stop", "add", "areg", "ltorg"] 4 = some out ∧
      (∀ (m : Int) (msg t : String), Emit.error m msg t ∈ out → t ∈ ALL_FIVE) ∧
      ∀ t : String, validate_statement 1 [t] 1
        = some (if t = "STOP" ∨ t = "LTORG" then valid_block 1 [t]
            else [Emit.error 1 "Invalid Mnemonic Instruction" t]) :=
  ⟨by decide, unreserved_token_never_flagged 1 ["stop", "add", "areg", "ltorg"] (by decide)⟩

/-- C9, as stated, fails: the 1-token statement `stop` differs from the reserved
word `STOP` only in letter case, is not a reserved word, and is flagged. -/
theorem case_variant_flagged :
    "stop" ∉ ALL_FIVE ∧ "STOP" ∈ ALL_FIVE ∧
    "stop".toList.map Char.toUpper = "STOP".toList.map Char.toUpper ∧
    validate_statement 1 ["stop"] 1
      = some [Emit.error 1 "Invalid Mnemonic Instruction" "stop"] ∧
    process_tokens 1 "stop" = some [Emit.error 1 "Invalid Mnemonic Instruction" "stop"] ∧
    ¬ (∀ (n : Int) (tokens : List String) (i : Nat) (t w : String),
        tokens[i]? = some t → t ∉ ALL_FIVE → w ∈ ALL_FIVE →
        t.toList.map Char.toUpper = w.toList.map Char.toUpper →
        ∀ (out : List Emit) (msg : String),
          validate_statement n tokens (tokens.length : Int) = some out →
          Emit.error n msg t ∉ out) := by
  refine ⟨by decide, by decide, by decide, by decide, by decide, ?_⟩
  intro hall
  exact hall 1 ["stop"] 0 "stop" "STOP" rfl (by decide) (by decide) (by decide)
    [Emit.error 1 "Invalid Mnemonic Instruction" "stop"] "Invalid Mnemonic Instruction" rfl
    (List.mem_singleton_self _)

/-- C10: for each of the five categories, `is_in_category` with the category's
table and count is true iff the token is equal to one of the words of the table,
and false otherwise; in general it is true iff the token equals `category[i]`
for some `0 <= i < count`.  There is no case folding and no prefix or substring
match. -/
theorem is_in_category_exact (token : String) :
    is_in_category token IMPERATIVE_STMTS IMPERATIVE_COUNT
      = some (decide (token ∈ IMPERATIVE_STMTS)) ∧
    is_in_category token DECLARATIVE_STMTS DECLARATIVE_COUNT
      = some (decide (token ∈ DECLARATIVE_STMTS)) ∧
    is_in_category token ASSEMBLER_DIRS ASSEMBLER_DIRS_COUNT
      = some (decide (token ∈ ASSEMBLER_DIRS)) ∧
    is_in_category token CONDITION_CODES CONDITION_CODES_COUNT
      = some (decide (token ∈ CONDITION_CODES)) ∧
    is_in_category token REGISTERS REGISTERS_COUNT
      = some (decide (token ∈ REGISTERS)) ∧
    (∀ (category : List String) (count : Int),
      is_in_category token category count = some true ↔
        ∃ i : Nat, (i : Int) < count ∧ category[i]? = some token) ∧
    (∀ category : List String,
      is_in_category token category (category.length : Int)
        = some (decide (token ∈ category))) ∧
    is_in_category "stop" IMPERATIVE_STMTS IMPERATIVE_COUNT = some false ∧
    is_in_category "Stop" IMPERATIVE_STMTS IMPERATIVE_COUNT = some false ∧
    is_in_category "STO" IMPERATIVE_STMTS IMPERATIVE_COUNT = some false ∧
    is_in_category "STOPX" IMPERATIVE_STMTS IMPERATIVE_COUNT = some false ∧
    is_in_category "TOP" IMPERATIVE_STMTS IMPERATIVE_COUNT = some false ∧
    is_in_category "areg" REGISTERS REGISTERS_COUNT = some false ∧
    is_in_category "REG" REGISTERS REGISTERS_COUNT = some false ∧
    is_in_category "" DECLARATIVE_STMTS DECLARATIVE_COUNT = some false := by
  refine ⟨is_in_IMPERATIVE token, is_in_DECLARATIVE token, is_in_ASSEMBLER_DIRS token,
    is_in_CONDITION_CODES token, is_in_REGISTERS token, ?_,
    fun category => is_in_category_table token category _ rfl,
    by decide, by decide, by decide, by decide, by decide, by decide, by decide, by decide⟩
  intro category count
  unfold is_in_category
  rw [is_in_category_loop_true_iff]
  constructor
  · rintro ⟨j, -, h2, h3⟩
    exact ⟨j, by omega, h3⟩
  · rintro ⟨i, h1, h2⟩
    exact ⟨i, Nat.zero_le i, by omega, h2⟩

/-! ## Disjoint tables, counts and array bounds -/

theorem categories_of_eq (token : String) :
    categories_of token
      = (if token ∈ IMPERATIVE_STMTS then [IMPERATIVE_STMTS] else []) ++
        (if token ∈ DECLARATIVE_STMTS then [DECLARATIVE_STMTS] else []) ++
        (if token ∈ ASSEMBLER_DIRS then [ASSEMBLER_DIRS] else []) ++
        (if token ∈ CONDITION_CODES then [CONDITION_CODES] else []) ++
        (if token ∈ REGISTERS then [REGISTERS] else []) := by
  unfold categories_of
  simp only [List.filterMap_cons, List.filterMap_nil, is_in_IMPERATIVE, is_in_DECLARATIVE,
    is_in_ASSEMBLER_DIRS, is_in_CONDITION_CODES, is_in_REGISTERS, Option.some.injEq,
    decide_eq_true_eq]
  by_cases h1 : token ∈ IMPERATIVE_STMTS <;> by_cases h2 : token ∈ DECLARATIVE_STMTS <;>
    by_cases h3 : token ∈ ASSEMBLER_DIRS <;> by_cases h4 : token ∈ CONDITION_CODES <;>
    by_cases h5 : token ∈ REGISTERS <;> simp [h1, h2, h3, h4, h5]

theorem tables_disjoint :
    (∀ w ∈ IMPERATIVE_STMTS, w ∉ DECLARATIVE_STMTS ∧ w ∉ ASSEMBLER_DIRS ∧
      w ∉ CONDITION_CODES ∧ w ∉ REGISTERS) ∧
    (∀ w ∈ DECLARATIVE_STMTS, w ∉ ASSEMBLER_DIRS ∧ w ∉ CONDITION_CODES ∧ w ∉ REGISTERS) ∧
    (∀ w ∈ ASSEMBLER_DIRS, w ∉ CONDITION_CODES ∧ w ∉ REGISTERS) ∧
    (∀ w ∈ CONDITION_CODES, w ∉ REGISTERS) := by
  decide

/-- C11: the five category tables are pairwise disjoint: no word is listed in
two of them (and none twice), so for every token at most one of the five
`is_in_category` calls is true. -/
theorem categories_pairwise_disjoint (token : String) :
    List.Pairwise List.Disjoint
      [IMPERATIVE_STMTS, DECLARATIVE_STMTS, ASSEMBLER_DIRS, CONDITION_CODES, REGISTERS] ∧
    ALL_FIVE.Nodup ∧
    (categories_of token).length ≤ 1 := by
  obtain ⟨d1, d2, d3, d4⟩ := tables_disjoint
  refine ⟨?_, by decide, ?_⟩
  · simp only [List.pairwise_cons, List.mem_cons, List.mem_singleton, List.not_mem_nil,
      forall_eq_or_imp, forall_eq, List.Pairwise.nil, and_true, IsEmpty.forall_iff,
      implies_true, List.Disjoint]
    refine ⟨⟨?_, ?_, ?_, ?_⟩, ⟨?_, ?_, ?_⟩, ⟨?_, ?_⟩, ?_⟩
    · exact fun a ha => (d1 a ha).1
    · exact fun a ha => (d1 a ha).2.1
    · exact fun a ha => (d1 a ha).2.2.1
    · exact fun a ha => (d1 a ha).2.2.2
    · exact fun a ha => (d2 a ha).1
    · exact fun a ha => (d2 a ha).2.1
    · exact fun a ha => (d2 a ha).2.2
    · exact fun a ha => (d3 a ha).1
    · exact fun a ha => (d3 a ha).2
    · exact fun a ha => d4 a ha
  · rw [categories_of_eq]
    by_cases h1 : token ∈ IMPERATIVE_STMTS
    · have := d1 token h1
      simp [h1, this.1, this.2.1, this.2.2.1, this.2.2.2]
    · by_cases h2 : token ∈ DECLARATIVE_STMTS
      · have := d2 token h2
        simp [h1, h2, this.1, this.2.1, this.2.2]
      · by_cases h3 : token ∈ ASSEMBLER_DIRS
        · have := d3 token h3
          simp [h1, h2, h3, this.1, this.2]
        · by_cases h4 : token ∈ CONDITION_CODES
          · have := d4 token h4
            simp [h1, h2, h3, h4, this]
          · by_cases h5 : token ∈ REGISTERS <;> simp [h1, h2, h3, h4, h5]

/-- C19: each declared count is the number of words of its table, so each
`is_in_category` call of `validate_statement` compares the token with every word
of the table and reads no element past its end; a count larger by one would read
past the end, a count smaller by one would miss the last word. -/
theorem category_counts_match_tables (token : String) :
    IMPERATIVE_COUNT = 10 ∧ DECLARATIVE_COUNT = 3 ∧ ASSEMBLER_DIRS_COUNT = 5 ∧
    CONDITION_CODES_COUNT = 6 ∧ REGISTERS_COUNT = 4 ∧
    IMPERATIVE_COUNT = (IMPERATIVE_STMTS.length : Int) ∧
    DECLARATIVE_COUNT = (DECLARATIVE_STMTS.length : Int) ∧
    ASSEMBLER_DIRS_COUNT = (ASSEMBLER_DIRS.length : Int) ∧
    CONDITION_CODES_COUNT = (CONDITION_CODES.length : Int) ∧
    REGISTERS_COUNT = (REGISTERS.length : Int) ∧
    is_in_category token IMPERATIVE_STMTS IMPERATIVE_COUNT
      = some (decide (token ∈ IMPERATIVE_STMTS)) ∧
    is_in_category token DECLARATIVE_STMTS DECLARATIVE_COUNT
      = some (decide (token ∈ DECLARATIVE_STMTS)) ∧
    is_in_category token ASSEMBLER_DIRS ASSEMBLER_DIRS_COUNT
      = some (decide (token ∈ ASSEMBLER_DIRS)) ∧
    is_in_category token CONDITION_CODES CONDITION_CODES_COUNT
      = some (decide (token ∈ CONDITION_CODES)) ∧
    is_in_category token REGISTERS REGISTERS_COUNT
      = some (decide (token ∈ REGISTERS)) ∧
    cond_all_five token = some (decide (token ∈ ALL_FIVE)) ∧
    cond_mnemonic token = some (decide (token ∈ ALL_BUT_IMPERATIVE)) ∧
    cond_register_op token = some (decide (token ∈ ALL_BUT_REGISTERS)) ∧
    is_in_category "LOOP" REGISTERS (REGISTERS_COUNT + 1) = none ∧
    is_in_category "DREG" REGISTERS (REGISTERS_COUNT - 1) = some false := by
  refine ⟨rfl, rfl, rfl, rfl, rfl, rfl, rfl, rfl, rfl, rfl, is_in_IMPERATIVE token,
    is_in_DECLARATIVE token, is_in_ASSEMBLER_DIRS token, is_in_CONDITION_CODES token,
    is_in_REGISTERS token, cond_all_five_eq token, cond_mnemonic_eq token,
    cond_register_op_eq token, by decide, by decide⟩

/-- C17: two lines with the same list of space/tab-separated words give the same
output of `process_tokens`, for every line number. -/
theorem process_tokens_depends_on_words (n : Int) (line1 line2 : String)
    (h : words line1 = words line2) :
    process_tokens n line1 = process_tokens n line2 ∧
    (process_tokens n line1).map stdout_text = (process_tokens n line2).map stdout_text := by
  have h1 : process_tokens n line1 = process_tokens n line2 := by
    rw [process_tokens_eq, process_tokens_eq, h]
  exact ⟨h1, by rw [h1]⟩

theorem process_tokens_depends_on_words_witness :
    words " \tLOOP   ADD\tAREG \t DATA1  " = words "LOOP ADD AREG DATA1" ∧
    process_tokens 5 " \tLOOP   ADD\tAREG \t DATA1  " = process_tokens 5 "LOOP ADD AREG DATA1" :=
  ⟨by decide,
    (process_tokens_depends_on_words 5 " \tLOOP   ADD\tAREG \t DATA1  " "LOOP ADD AREG DATA1"
      (by decide)).1⟩

theorem validate_statement_some (n : Int) (tokens : List String) :
    ∃ out, validate_statement n tokens (tokens.length : Int) = some out :=
  ⟨_, by rw [validate_statement, run_eq_rule_table]; rfl⟩

/-- C18: for every line the loop of `process_tokens` performs no store outside
`tokens[0..9]` (such a store is a fault of `store_token`), leaves
`0 <= token_count <= 10` with exactly the elements below `token_count` written,
and `validate_statement` then reads no element at or above `token_count` (such a
read is a fault); a `token_count` larger than the written part does fault. -/
theorem token_storage_in_range (line : String) :
    ∃ st, process_tokens_scan line = some st ∧
      0 ≤ (st.token_count : Int) ∧ st.token_count ≤ 10 ∧
      st.tokens.length = st.token_count ∧
      (∀ n : Int, ∃ out, validate_statement n st.tokens (st.token_count : Int) = some out) ∧
      (∀ n : Int, ∃ out, process_tokens n line = some out) ∧
      (∀ (tokens : List String) (i : Nat) (t : String), 10 ≤ i → store_token tokens i t = none) ∧
      (∀ (n : Int) (t0 : String), validate_statement n [t0] 2 = none) ∧
      (∀ (n : Int) (t0 t1 : String), validate_statement n [t0, t1] 3 = none) ∧
      (∀ (n : Int) (t0 t1 t2 : String), validate_statement n [t0, t1, t2] 4 = none) ∧
      (∀ (n : Int) (t0 t1 t2 t3 : String), validate_statement n [t0, t1, t2, t3] 5 = none) ∧
      (∀ n : Int, validate_statement n [] 1 = none) := by
  obtain ⟨st, h1, h2, h3, -⟩ := process_tokens_scan_spec line
  have hlen : st.token_count ≤ 10 := by
    rw [← h3, h2, List.length_take]
    omega
  refine ⟨st, h1, by omega, hlen, h3, ?_, ?_, ?_, ?_, ?_, ?_, ?_, ?_⟩
  · intro n
    rw [← h3]
    exact validate_statement_some n st.tokens
  · intro n
    rw [process_tokens_eq]
    exact validate_statement_some n _
  · intro tokens i t hi
    unfold store_token
    rw [if_neg (by omega)]
  · intro n t0; rfl
  · intro n t0 t1; rfl
  · intro n t0 t1 t2; rfl
  · intro n t0 t1 t2 t3; rfl
  · intro n; rfl

/-! ## Tokenizing a single-space-joined line -/

theorem intercalate_go_data (sep acc : String) (rest : List String) :
    (String.intercalate.go acc sep rest).data
      = acc.data ++ (rest.map fun a => sep.data ++ a.data).flatten := by
  induction rest generalizing acc with
  | nil => simp [String.intercalate.go]
  | cons a rest ih =>
    rw [String.intercalate.go, ih]
    simp [String.data_append, List.append_assoc]

theorem intercalate_space_data (t : String) (ts : List String) :
    (String.intercalate " " (t :: ts)).data
      = t.data ++ (ts.map fun a => ' ' :: a.data).flatten := by
  rw [String.intercalate, intercalate_go_data]
  rfl

theorem takeWhile_not_delim_self (r : List Char) (h : ∀ c ∈ r, ¬ is_delimiter c = true) :
    r.takeWhile (fun x => !is_delimiter x) = r := by
  rw [List.takeWhile_eq_self_iff]
  intro c hc
  simpa using h c hc

theorem maximal_runs_word_space (r rest : List Char)
    (hr : r ≠ [] ∧ ∀ c ∈ r, ¬ is_delimiter c = true) :
    maximal_runs (r ++ ' ' :: rest) = r :: maximal_runs rest := by
  obtain ⟨hne, hnd⟩ := hr
  cases r with
  | nil => exact absurd rfl hne
  | cons c cs =>
    have hpos : ∀ x ∈ c :: cs, (fun x => !is_delimiter x) x = true := by
      intro x hx
      simpa using hnd x hx
    have hsp : is_delimiter ' ' = true := by decide
    have htw : ((c :: cs) ++ ' ' :: rest).takeWhile (fun x => !is_delimiter x) = c :: cs := by
      rw [List.takeWhile_append_of_pos hpos, List.takeWhile_cons_of_neg (by simp [hsp]),
        List.append_nil]
    have hdw : ((c :: cs) ++ ' ' :: rest).dropWhile (fun x => !is_delimiter x)
        = ' ' :: rest := by
      rw [List.dropWhile_append_of_pos hpos, List.dropWhile_cons_of_neg (by simp [hsp])]
    have hcw := maximal_runs_cons_word c (cs ++ ' ' :: rest) (hnd c (List.mem_cons_self _ _))
    rw [← List.cons_append, htw, hdw] at hcw
    rw [hcw]
    rfl

theorem maximal_runs_word_only (r : List Char)
    (hr : r ≠ [] ∧ ∀ c ∈ r, ¬ is_delimiter c = true) :
    maximal_runs r = [r] := by
  obtain ⟨hne, hnd⟩ := hr
  cases r with
  | nil => exact absurd rfl hne
  | cons c cs =>
    rw [maximal_runs_cons_word c cs (hnd c (List.mem_cons_self _ _)),
      takeWhile_not_delim_self _ hnd]
    have hd : (c :: cs).dropWhile (fun x => !is_delimiter x) = [] := by
      rw [List.dropWhile_eq_nil_iff]
      intro x hx
      simpa using hnd x hx
    rw [hd]
    simp [maximal_runs_nil]

/-- The runs of delimiter-free non-empty pieces joined by single spaces are the
pieces. -/
theorem maximal_runs_joined (r : List Char) (rs : List (List Char))
    (hr : r ≠ [] ∧ ∀ c ∈ r, ¬ is_delimiter c = true)
    (hrs : ∀ x ∈ rs, x ≠ [] ∧ ∀ c ∈ x, ¬ is_delimiter c = true) :
    maximal_runs (r ++ (rs.map fun a => ' ' :: a).flatten) = r :: rs := by
  induction rs generalizing r with
  | nil =>
    simp only [List.map_nil, List.flatten_nil, List.append_nil]
    exact maximal_runs_word_only r hr
  | cons a as ih =>
    have hstep : r ++ ((a :: as).map fun a => ' ' :: a).flatten
        = r ++ ' ' :: (a ++ (as.map fun a => ' ' :: a).flatten) := rfl
    rw [hstep, maximal_runs_word_space r _ hr,
      ih a (hrs a (List.mem_cons_self _ _)) (fun x hx => hrs x (List.mem_cons_of_mem _ hx))]

theorem words_intercalate (ts : List String)
    (h : ∀ t ∈ ts, t ≠ "" ∧ ' ' ∉ t.toList ∧ '\t' ∉ t.toList) :
    words (String.intercalate " " ts) = ts := by
  have good : ∀ t ∈ ts, t.data ≠ [] ∧ ∀ c ∈ t.data, ¬ is_delimiter c = true := by
    intro t ht
    obtain ⟨h1, h2, h3⟩ := h t ht
    refine ⟨fun hd => h1 (String.ext hd), ?_⟩
    intro c hc hdel
    simp only [is_delimiter, Bool.or_eq_true, decide_eq_true_eq] at hdel
    rcases hdel with rfl | rfl
    · exact h2 hc
    · exact h3 hc
  cases ts with
  | nil => decide
  | cons t ts =>
    unfold words
    rw [String.toList, intercalate_space_data]
    have hmap : (ts.map fun a => ' ' :: a.data) = (ts.map String.data).map fun a => ' ' :: a := by
      rw [List.map_map]; rfl
    rw [hmap, maximal_runs_joined t.data (ts.map String.data) (good t (List.mem_cons_self _ _))]
    · simp only [List.map_cons, List.map_map]
      congr 1
      exact List.map_id' _
    · intro x hx
      rw [List.mem_map] at hx
      obtain ⟨u, hu, rfl⟩ := hx
      exact good u (List.mem_cons_of_mem _ hu)

/-- C12: tokenizing the single-space join of the tokens extracted from a line
gives the same tokens again, in the same order and with the same count. -/
theorem tokenize_idempotent (line : String) :
    ∃ st, process_tokens_scan line = some st ∧
      ∃ st2, process_tokens_scan (String.intercalate " " st.tokens) = some st2 ∧
        st2.tokens = st.tokens ∧ st2.token_count = st.token_count ∧
        ∀ n : Int, process_tokens n (String.intercalate " " st.tokens)
          = process_tokens n line := by
  obtain ⟨st, h1, h2, h3, -⟩ := process_tokens_scan_spec line
  obtain ⟨st2, k1, k2, k3, -⟩ := process_tokens_scan_spec (String.intercalate " " st.tokens)
  have hw : words (String.intercalate " " st.tokens) = st.tokens := by
    apply words_intercalate
    intro t ht
    rw [h2] at ht
    exact words_mem line t (List.mem_of_mem_take ht)
  have hlen : st.tokens.length ≤ 10 := by
    rw [h2, List.length_take]; omega
  have ht : st2.tokens = st.tokens := by
    rw [k2, hw, List.take_of_length_le hlen]
  refine ⟨st, h1, st2, k1, ht, ?_, ?_⟩
  · rw [← k3, ← h3, ht]
  · intro n
    rw [process_tokens_eq, process_tokens_eq, hw, ← h2, List.take_of_length_le hlen]

/-! ## Independence of the line number and of earlier lines -/

theorem valid_block_with_line (n m : Int) (tokens : List String) :
    (valid_block n tokens).map (Emit.with_line m) = valid_block m tokens := by
  simp [valid_block, Emit.with_line, Function.comp_def]

theorem error_lines_with_line (n m : Int) (tokens : List String) :
    (error_lines n tokens).map (Emit.with_line m) = error_lines m tokens := by
  simp [error_lines, Emit.with_line, Function.comp_def]

theorem validate_statement_eq_rule_table (n : Int) (tokens : List String) :
    validate_statement n tokens (tokens.length : Int)
      = some (if (violated_slots tokens).isEmpty then valid_block n tokens
          else error_lines n tokens) := by
  rw [validate_statement, run_eq_rule_table]; rfl

/-- The blocks printed before an iteration have no effect on the later ones. -/
theorem main_loop_frame (fuel : Nat) (file : List Char) (k : Int) (blocks : List (List Emit)) :
    main_loop fuel file k blocks
      = (main_loop fuel file k []).map fun later => blocks ++ later := by
  induction fuel generalizing file k blocks with
  | zero =>
    cases file <;> simp [main_loop]
  | succ fuel ih =>
    unfold main_loop
    cases fgets MAX_LINE_LEN file with
    | none => simp
    | some p =>
      obtain ⟨buf, rest⟩ := p
      simp only
      by_cases hk : k < INT_MAX
      · rw [if_pos hk, if_pos hk]
        cases process_tokens (k + 1) (String.mk (strip_newline buf)) with
        | none => rfl
        | some block =>
          simp only
          rw [ih rest (k + 1) (blocks ++ [block]), ih rest (k + 1) ([] ++ [block])]
          cases main_loop fuel rest (k + 1) [] <;> simp
      · rw [if_neg hk, if_neg hk]
        rfl

/-- C14: for every token sequence the verdict (`has_error`) is the same for all
line numbers, the report for line number `m` is the report for line number `n`
with the printed number replaced, so the violations and their order are the
same, and the same holds through `process_tokens`; in `main` the blocks printed
for earlier lines have no effect on the blocks of later lines. -/
theorem validate_statement_pure (n m : Int) (tokens : List String) :
    (validate_statement_run m tokens (tokens.length : Int)).map VState.has_error
      = (validate_statement_run n tokens (tokens.length : Int)).map VState.has_error ∧
    (validate_statement_run n tokens (tokens.length : Int)).map VState.has_error
      = some (!(violated_slots tokens).isEmpty) ∧
    validate_statement m tokens (tokens.length : Int)
      = (validate_statement n tokens (tokens.length : Int)).map (List.map (Emit.with_line m)) ∧
    (validate_statement n tokens (tokens.length : Int)).map (List.map (Emit.with_line n))
      = validate_statement n tokens (tokens.length : Int) ∧
    (∀ line : String, process_tokens m line
      = (process_tokens n line).map (List.map (Emit.with_line m))) ∧
    ∀ (fuel : Nat) (file : List Char) (k : Int) (blocks : List (List Emit)),
      main_loop fuel file k blocks
        = (main_loop fuel file k []).map fun later => blocks ++ later := by
  have key : ∀ (a b : Int) (toks : List String),
      validate_statement a toks (toks.length : Int)
        = (validate_statement b toks (toks.length : Int)).map (List.map (Emit.with_line a)) := by
    intro a b toks
    rw [validate_statement_eq_rule_table, validate_statement_eq_rule_table]
    cases (violated_slots toks).isEmpty
    · simp [error_lines_with_line]
    · simp [valid_block_with_line]
  refine ⟨?_, ?_, key m n tokens, (key n n tokens).symm, ?_, main_loop_frame⟩
  · rw [run_eq_rule_table, run_eq_rule_table]
    rfl
  · rw [run_eq_rule_table]; rfl
  · intro line
    rw [process_tokens_eq, process_tokens_eq]
    exact key m n _

/-! ## The line handed to `process_tokens` -/

theorem strip_newline_eq (buf : List Char) :
    strip_newline buf = buf.takeWhile fun c => c != '\x00' && c != '\n' := by
  induction buf with
  | nil => rfl
  | cons c cs ih =>
    by_cases h0 : c = '\x00'
    · subst h0; rfl
    · by_cases hn : c = '\n'
      · subst hn; rfl
      · rw [List.takeWhile_cons, ← ih]
        unfold strip_newline c_string strcspn
        simp [List.takeWhile_cons, h0, hn]

theorem takeWhile_append_stop (p : Char → Bool) (l rest : List Char) (x : Char)
    (hx : p x = false) :
    (l ++ x :: rest).takeWhile p = l.takeWhile p := by
  induction l with
  | nil => simp [List.takeWhile_cons, hx]
  | cons c cs ih =>
    by_cases hc : p c = true
    · rw [List.cons_append, List.takeWhile_cons_of_pos hc, List.takeWhile_cons_of_pos hc, ih]
    · rw [List.cons_append, List.takeWhile_cons_of_neg hc, List.takeWhile_cons_of_neg hc]

theorem strip_newline_no_newline (l : List Char) (h : '\n' ∉ l) :
    strip_newline l = c_string l := by
  rw [strip_newline_eq]
  unfold c_string
  induction l with
  | nil => rfl
  | cons c cs ih =>
    have hc : c ≠ '\n' := fun e => h (e ▸ List.mem_cons_self _ _)
    have hcs : '\n' ∉ cs := fun e => h (List.mem_cons_of_mem _ e)
    rw [List.takeWhile_cons, List.takeWhile_cons, ih hcs]
    by_cases h0 : c = '\x00' <;> simp [h0, hc]

theorem strip_newline_line (l rest : List Char) (h : '\n' ∉ l) :
    strip_newline (l ++ '\n' :: rest) = c_string l := by
  rw [← strip_newline_no_newline l h, strip_newline_eq, strip_newline_eq,
    takeWhile_append_stop _ l rest '\n' (by decide)]

theorem main_loop_step (fuel : Nat) (file buf rest : List Char) (n : Int)
    (blocks : List (List Emit)) (hf : fgets MAX_LINE_LEN file = some (buf, rest))
    (hn : n < INT_MAX) :
    main_loop (fuel + 1) file n blocks
      = (process_tokens (n + 1) (String.mk (strip_newline buf))).bind fun block =>
          main_loop fuel rest (n + 1) (blocks ++ [block]) := by
  rw [main_loop, hf]
  simp only
  rw [if_pos hn]
  cases process_tokens (n + 1) (String.mk (strip_newline buf)) <;> rfl

theorem fgets_read_line (k : Nat) (l rest : List Char) (hn : '\n' ∉ l) (hk : l.length < k) :
    fgets_read k (l ++ '\n' :: rest) = (l ++ ['\n'], rest) := by
  induction l generalizing k with
  | nil =>
    cases k with
    | zero => omega
    | succ k => simp [fgets_read]
  | cons c cs ih =>
    have hc : c ≠ '\n' := fun e => hn (e ▸ List.mem_cons_self _ _)
    have hcs : '\n' ∉ cs := fun e => hn (List.mem_cons_of_mem _ e)
    cases k with
    | zero => simp at hk
    | succ k =>
      have hk2 : cs.length < k := by simpa using hk
      show fgets_read (k + 1) (c :: (cs ++ '\n' :: rest)) = (c :: (cs ++ ['\n']), rest)
      rw [fgets_read, if_neg hc, ih k hcs hk2]

theorem fgets_read_eof (k : Nat) (l : List Char) (hn : '\n' ∉ l) (hk : l.length ≤ k) :
    fgets_read k l = (l, []) := by
  induction l generalizing k with
  | nil => cases k <;> rfl
  | cons c cs ih =>
    have hc : c ≠ '\n' := fun e => hn (e ▸ List.mem_cons_self _ _)
    have hcs : '\n' ∉ cs := fun e => hn (List.mem_cons_of_mem _ e)
    cases k with
    | zero => simp at hk
    | succ k =>
      have hk2 : cs.length ≤ k := by simpa using hk
      simp only [fgets_read, if_neg hc, ih k hcs hk2]

theorem fgets_read_full (k : Nat) (a rest : List Char) (hn : '\n' ∉ a) (hk : a.length = k) :
    fgets_read k (a ++ rest) = (a, rest) := by
  induction a generalizing k with
  | nil =>
    subst hk
    cases rest <;> rfl
  | cons c cs ih =>
    have hc : c ≠ '\n' := fun e => hn (e ▸ List.mem_cons_self _ _)
    have hcs : '\n' ∉ cs := fun e => hn (List.mem_cons_of_mem _ e)
    cases k with
    | zero => simp at hk
    | succ k =>
      have hk2 : cs.length = k := by simpa using hk
      show fgets_read (k + 1) (c :: (cs ++ rest)) = (c :: cs, rest)
      rw [fgets_read, if_neg hc, ih k hcs hk2]

theorem fgets_line (l rest : List Char) (hn : '\n' ∉ l) (hk : l.length ≤ 254) :
    fgets MAX_LINE_LEN (l ++ '\n' :: rest) = some (l ++ ['\n'], rest) := by
  have h := fgets_read_line 255 l rest hn (by omega)
  cases l with
  | nil => simpa [fgets, MAX_LINE_LEN] using h
  | cons c cs => simpa [fgets, MAX_LINE_LEN] using h

theorem fgets_eof (l : List Char) (hne : l ≠ []) (hn : '\n' ∉ l) (hk : l.length ≤ 255) :
    fgets MAX_LINE_LEN l = some (l, []) := by
  have h := fgets_read_eof 255 l hn hk
  cases l with
  | nil => exact absurd rfl hne
  | cons c cs => simpa [fgets, MAX_LINE_LEN] using h

theorem fgets_full (a rest : List Char) (hn : '\n' ∉ a) (hk : a.length = 255) :
    fgets MAX_LINE_LEN (a ++ rest) = some (a, rest) := by
  have h := fgets_read_full 255 a rest hn hk
  cases a with
  | nil => simp at hk
  | cons c cs => simpa [fgets, MAX_LINE_LEN] using h

theorem process_tokens_report (n : Int) (l : List Char) :
    process_tokens n (String.mk (c_string l)) = some (report n l) := by
  rw [process_tokens_eq, validate_statement_eq_rule_table]
  rfl

theorem report_ne_nil (n : Int) (l : List Char) : report n l ≠ [] := by
  unfold report
  cases hv : violated_slots ((words (String.mk (c_string l))).take 10) with
  | nil => simp [valid_block]
  | cons p ps => simp [error_lines, hv]

theorem report_numbered (n : Int) (l : List Char) :
    report n l = valid_block n ((words (String.mk (c_string l))).take 10) ∨
    ∀ e ∈ report n l, ∃ msg t, e = Emit.error n msg t := by
  unfold report
  cases hv : (violated_slots ((words (String.mk (c_string l))).take 10)).isEmpty with
  | true => left; rfl
  | false =>
    right
    intro e he
    simp only [Bool.false_eq_true, if_false, error_lines, List.mem_map] at he
    obtain ⟨q, -, rfl⟩ := he
    exact ⟨_, _, rfl⟩

theorem reports_from_length (n : Int) (ls : List (List Char)) :
    (reports_from n ls).length = ls.length := by
  induction ls generalizing n with
  | nil => rfl
  | cons l ls ih => simp [reports_from, ih]

theorem reports_from_getElem? (n : Int) (ls : List (List Char)) (i : Nat) :
    (reports_from n ls)[i]? = ls[i]?.map fun l => report (n + (i : Int) + 1) l := by
  induction ls generalizing n i with
  | nil => simp [reports_from]
  | cons l ls ih =>
    cases i with
    | zero => simp [reports_from]
    | succ i =>
      simp only [reports_from, List.getElem?_cons_succ, ih]
      have e : n + 1 + (i : Int) + 1 = n + ((i + 1 : Nat) : Int) + 1 := by
        push_cast; ring
      rw [e]

/-- One step of the loop on a newline-terminated line that fits the buffer. -/
theorem main_loop_line (fuel : Nat) (l rest : List Char) (n : Int) (acc : List (List Emit))
    (hn : '\n' ∉ l) (hk : l.length ≤ 254) (hi : n < INT_MAX) :
    main_loop (fuel + 1) (l ++ '\n' :: rest) n acc
      = main_loop fuel rest (n + 1) (acc ++ [report (n + 1) l]) := by
  rw [main_loop_step fuel _ _ _ n acc (fgets_line l rest hn hk) hi,
    strip_newline_line l [] hn, process_tokens_report]
  rfl

/-- One step of the loop on an unterminated last line that fits the buffer. -/
theorem main_loop_last (fuel : Nat) (l : List Char) (n : Int) (acc : List (List Emit))
    (hne : l ≠ []) (hn : '\n' ∉ l) (hk : l.length ≤ 255) (hi : n < INT_MAX) :
    main_loop (fuel + 1) l n acc = some (acc ++ [report (n + 1) l]) := by
  rw [main_loop_step fuel _ _ _ n acc (fgets_eof l hne hn hk) hi,
    strip_newline_no_newline l hn, process_tokens_report]
  cases fuel <;> simp [main_loop, fgets]

/-- One step of the loop on text whose first 255 characters hold no newline. -/
theorem main_loop_chunk (fuel : Nat) (a rest : List Char) (n : Int) (acc : List (List Emit))
    (hn : '\n' ∉ a) (hk : a.length = 255) (hi : n < INT_MAX) :
    main_loop (fuel + 1) (a ++ rest) n acc
      = main_loop fuel rest (n + 1) (acc ++ [report (n + 1) a]) := by
  rw [main_loop_step fuel _ _ _ n acc (fgets_full a rest hn hk) hi,
    strip_newline_no_newline a hn, process_tokens_report]
  rfl

theorem main_loop_lines (lines : List (List Char)) (last : List Char) (fuel : Nat) (n : Int)
    (acc : List (List Emit))
    (hl : ∀ l ∈ lines, '\n' ∉ l ∧ l.length ≤ 254)
    (hlast : '\n' ∉ last ∧ last.length ≤ 255)
    (hk : n + ((lines ++ if last = [] then [] else [last]).length : Int) ≤ INT_MAX)
    (hf : (file_of_lines lines ++ last).length ≤ fuel) :
    main_loop fuel (file_of_lines lines ++ last) n acc
      = some (acc ++ reports_from n (lines ++ if last = [] then [] else [last])) := by
  induction lines generalizing fuel n acc with
  | nil =>
    simp only [file_of_lines, List.map_nil, List.flatten_nil, List.nil_append] at hf ⊢
    by_cases hne : last = []
    · subst hne
      cases fuel <;> simp [main_loop, fgets, reports_from]
    · cases fuel with
      | zero =>
        have : last.length = 0 := by omega
        exact absurd (List.length_eq_zero.mp this) hne
      | succ fuel =>
        simp only [if_neg hne, List.nil_append, List.length_singleton] at hk ⊢
        rw [main_loop_last fuel last n acc hne hlast.1 hlast.2 (by
          push_cast at hk; omega)]
        rfl
  | cons l ls ih =>
    have hfile : file_of_lines (l :: ls) ++ last = l ++ '\n' :: (file_of_lines ls ++ last) := by
      simp [file_of_lines]
    rw [hfile] at hf ⊢
    obtain ⟨hln, hll⟩ := hl l (List.mem_cons_self _ _)
    cases fuel with
    | zero => simp at hf
    | succ fuel =>
      simp only [List.cons_append, List.length_cons] at hk
      have hlen0 : (0 : Int) ≤ ((ls ++ if last = [] then [] else [last]).length : Int) :=
        Int.ofNat_nonneg _
      rw [main_loop_line fuel l _ n acc hln hll (by push_cast at hk; omega),
        ih fuel (n + 1) _ (fun x hx => hl x (List.mem_cons_of_mem _ hx))
          (by push_cast at hk ⊢; omega)
          (by simp only [List.length_append, List.length_cons] at hf ⊢; omega)]
      simp [reports_from]

theorem main_loop_overflow (k fuel : Nat) (n : Int) (acc : List (List Emit))
    (hf : k ≤ fuel) (hn : n ≤ INT_MAX) (hk : INT_MAX < n + (k : Int)) :
    main_loop fuel (List.replicate k '\n') n acc = none := by
  induction k generalizing fuel n acc with
  | zero => simp at hk; omega
  | succ k ih =>
    cases fuel with
    | zero => omega
    | succ fuel =>
      by_cases hi : n < INT_MAX
      · have hline := main_loop_line fuel [] (List.replicate k '\n') n acc (by simp) (by simp) hi
        rw [List.nil_append] at hline
        rw [List.replicate_succ, hline]
        exact ih fuel (n + 1) _ (by omega) (by omega) (by push_cast at hk; omega)
      · rw [List.replicate_succ, main_loop]
        simp [fgets, MAX_LINE_LEN, hi]

theorem fgets_read_length (k : Nat) (file : List Char) :
    (fgets_read k file).1.length + (fgets_read k file).2.length = file.length ∧
    (0 < k → file ≠ [] → (fgets_read k file).2.length < file.length) := by
  induction file generalizing k with
  | nil => cases k <;> simp [fgets_read]
  | cons c cs ih =>
    cases k with
    | zero => simp [fgets_read]
    | succ k =>
      by_cases hc : c = '\n'
      · simp [fgets_read, hc, Nat.add_comm]
      · have h1 := (ih k).1
        simp only [fgets_read, if_neg hc, List.length_cons]
        constructor
        · omega
        · intro _ _
          omega

/-- Fuel beyond the number of unread characters changes nothing: the loop ends
by the `NULL` of `fgets`. -/
theorem main_loop_fuel (fuel1 fuel2 : Nat) (file : List Char) (n : Int)
    (acc : List (List Emit)) (h1 : file.length ≤ fuel1) (h2 : file.length ≤ fuel2) :
    main_loop fuel1 file n acc = main_loop fuel2 file n acc := by
  induction fuel1 generalizing fuel2 file n acc with
  | zero =>
    have hnil : file = [] := List.length_eq_zero.mp (by omega)
    subst hnil
    cases fuel2 <;> simp [main_loop, fgets]
  | succ fuel1 ih =>
    cases file with
    | nil => cases fuel2 <;> simp [main_loop, fgets]
    | cons c cs =>
      cases fuel2 with
      | zero => simp at h2
      | succ fuel2 =>
        have hlt := (fgets_read_length (MAX_LINE_LEN - 1) (c :: cs)).2 (by decide)
          (List.cons_ne_nil _ _)
        simp only [main_loop, fgets]
        by_cases hi : n < INT_MAX
        · simp only [if_pos hi]
          cases process_tokens (n + 1)
              (String.mk (strip_newline (fgets_read (MAX_LINE_LEN - 1) (c :: cs)).1)) with
          | none => rfl
          | some block =>
            simp only
            exact ih fuel2 _ _ _ (by simp only [List.length_cons] at h1 hlt; omega)
              (by simp only [List.length_cons] at h2 hlt; omega)
        · simp only [if_neg hi]

/-- C13, as the code has it: for an input of at most `INT_MAX` lines, each of at
most 254 characters before its newline (the last one possibly unterminated, of
at most 255 characters), the loop of `main` ends and prints exactly one block
per line, in input order; block `i` (from 1) is the non-empty report of line
`i`, and is either the `[VALID]` block with number `i` or made of `Error` lines
that all carry number `i`. -/
theorem main_one_block_per_line (lines : List (List Char)) (last : List Char)
    (hl : ∀ l ∈ lines, '\n' ∉ l ∧ l.length ≤ 254)
    (hlast : '\n' ∉ last ∧ last.length ≤ 255)
    (hk : ((lines ++ if last = [] then [] else [last]).length : Int) ≤ INT_MAX) :
    ∃ blocks, main_blocks (file_of_lines lines ++ last) = some blocks ∧
      main (some (file_of_lines lines ++ last)) = some (stdout_text blocks.flatten, 0) ∧
      blocks.length = (lines ++ if last = [] then [] else [last]).length ∧
      ∀ (i : Nat) (l : List Char),
        (lines ++ if last = [] then [] else [last])[i]? = some l →
        blocks[i]? = some (report ((i : Int) + 1) l) ∧
        process_tokens ((i : Int) + 1) (String.mk (c_string l))
          = some (report ((i : Int) + 1) l) ∧
        report ((i : Int) + 1) l ≠ [] ∧
        (report ((i : Int) + 1) l
            = valid_block ((i : Int) + 1) ((words (String.mk (c_string l))).take 10) ∨
          ∀ e ∈ report ((i : Int) + 1) l, ∃ msg t, e = Emit.error ((i : Int) + 1) msg t) := by
  have hrun : main_blocks (file_of_lines lines ++ last)
      = some (reports_from 0 (lines ++ if last = [] then [] else [last])) := by
    unfold main_blocks
    rw [main_loop_lines lines last _ 0 [] hl hlast (by omega) (le_refl _)]
    rfl
  refine ⟨_, hrun, ?_, reports_from_length 0 _, ?_⟩
  · simp only [main, hrun, Option.map_some']
  · intro i l hi
    refine ⟨?_, process_tokens_report _ l, report_ne_nil _ l, report_numbered _ l⟩
    rw [reports_from_getElem?, hi]
    simp

theorem main_one_block_per_line_witness :
    (∀ l ∈ ["LOOP ADD AREG DATA1".toList, [], "ADD AREG BREG".toList],
      '\n' ∉ l ∧ l.length ≤ 254) ∧
    ('\n' ∉ "STOP".toList ∧ "STOP".toList.length ≤ 255) ∧
    ∃ blocks,
      main_blocks (file_of_lines ["LOOP ADD AREG DATA1".toList, [], "ADD AREG BREG".toList]
        ++ "STOP".toList) = some blocks ∧
      blocks.length = 4 := by
  refine ⟨by decide, by decide, ?_⟩
  obtain ⟨blocks, h1, -, h3, -⟩ :=
    main_one_block_per_line ["LOOP ADD AREG DATA1".toList, [], "ADD AREG BREG".toList]
      "STOP".toList (by decide) (by decide) (by decide)
  exact ⟨blocks, h1, h3⟩

set_option maxRecDepth 1000000 in
/-- C13, as stated, fails: one input line of 255 characters and its newline (256
bytes, the value of `MAX_LINE_LEN`) is read in two pieces and gives two blocks,
numbered 1 and 2; and on an input of 2147483648 lines the `int` counter
overflows, whatever the fuel. -/
theorem line_count_off :
    ((List.replicate 251 ' ' ++ "STOP".toList) ++ ['\n']).length = MAX_LINE_LEN ∧
    main_blocks (file_of_lines [List.replicate 251 ' ' ++ "STOP".toList])
      = some [valid_block 1 ["STOP"], valid_block 2 []] ∧
    main (some (file_of_lines [List.replicate 251 ' ' ++ "STOP".toList]))
      = some ("[VALID] Line 1: STOP \n[VALID] Line 2: \n", 0) ∧
    main_blocks (List.replicate 2147483648 '\n') = none ∧
    ∀ fuel : Nat, 2147483648 ≤ fuel →
      main_loop fuel (List.replicate 2147483648 '\n') 0 [] = none := by
  refine ⟨by decide, by decide, by decide, ?_, ?_⟩
  · exact main_loop_overflow 2147483648 _ 0 [] (by rw [List.length_replicate]) (by decide)
      (by decide)
  · intro fuel hf
    exact main_loop_overflow 2147483648 fuel 0 [] hf (by decide) (by decide)

/-! ## Lines of any length -/

theorem line_pieces_short (l : List Char) (h : l.length ≤ 254) : line_pieces l = [l] := by
  unfold line_pieces
  have h0 : l.length / 255 = 0 := by omega
  rw [h0, show List.range (0 + 1) = [0] from rfl]
  simp only [List.map_cons, List.map_nil, Nat.mul_zero, List.drop_zero,
    List.take_of_length_le (show l.length ≤ 255 by omega)]

theorem pieces_shift (l : List Char) (k : Nat) :
    (List.range (k + 1)).map (fun i => (l.drop (255 * i)).take 255)
      = l.take 255 ::
        (List.range k).map (fun i => ((l.drop 255).drop (255 * i)).take 255) := by
  rw [List.range_succ_eq_map, List.map_cons, List.map_map]
  congr 1
  apply List.map_congr_left
  intro i _
  simp only [Function.comp, List.drop_drop]
  congr 2
  show 255 * (i + 1) = 255 + 255 * i
  omega

theorem line_pieces_long (l : List Char) (h : 255 ≤ l.length) :
    line_pieces l = l.take 255 :: line_pieces (l.drop 255) := by
  unfold line_pieces
  have h0 : l.length / 255 = (l.drop 255).length / 255 + 1 := by
    rw [List.length_drop]; omega
  rw [h0, pieces_shift]

theorem last_pieces_nil : last_pieces [] = [] := rfl

theorem last_pieces_short (l : List Char) (hne : l ≠ []) (h : l.length ≤ 255) :
    last_pieces l = [l] := by
  unfold last_pieces
  have hpos : 0 < l.length := List.length_pos.mpr hne
  have h0 : (l.length + 254) / 255 = 1 := by omega
  rw [h0, show List.range 1 = [0] from rfl]
  simp only [List.map_cons, List.map_nil, Nat.mul_zero, List.drop_zero,
    List.take_of_length_le h]

theorem last_pieces_long (l : List Char) (h : 256 ≤ l.length) :
    last_pieces l = l.take 255 :: last_pieces (l.drop 255) := by
  unfold last_pieces
  have h0 : (l.length + 254) / 255 = ((l.drop 255).length + 254) / 255 + 1 := by
    rw [List.length_drop]; omega
  rw [h0, pieces_shift]

theorem line_pieces_length (l : List Char) : (line_pieces l).length = l.length / 255 + 1 := by
  simp [line_pieces]

theorem last_pieces_length (l : List Char) :
    (last_pieces l).length = (l.length + 254) / 255 := by
  simp [last_pieces]

theorem line_pieces_flatten (m : Nat) (l : List Char) (h : l.length ≤ m) :
    (line_pieces l).flatten = l := by
  induction m generalizing l with
  | zero => rw [line_pieces_short l (by omega)]; simp
  | succ m ih =>
    by_cases hs : l.length ≤ 254
    · rw [line_pieces_short l hs]; simp
    · rw [line_pieces_long l (by omega), List.flatten_cons,
        ih (l.drop 255) (by rw [List.length_drop]; omega), List.take_append_drop]

theorem last_pieces_flatten (m : Nat) (l : List Char) (h : l.length ≤ m) :
    (last_pieces l).flatten = l := by
  induction m generalizing l with
  | zero =>
    have : l = [] := List.length_eq_zero.mp (by omega)
    subst this; rfl
  | succ m ih =>
    by_cases hnil : l = []
    · subst hnil; rfl
    · by_cases hs : l.length ≤ 255
      · rw [last_pieces_short l hnil hs]; simp
      · rw [last_pieces_long l (by omega), List.flatten_cons,
          ih (l.drop 255) (by rw [List.length_drop]; omega), List.take_append_drop]

theorem reports_from_append (n : Int) (xs ys : List (List Char)) :
    reports_from n (xs ++ ys)
      = reports_from n xs ++ reports_from (n + (xs.length : Int)) ys := by
  induction xs generalizing n with
  | nil => simp [reports_from]
  | cons x xs ih =>
    have e : n + (((x :: xs).length : Nat) : Int) = n + 1 + (xs.length : Int) := by
      simp only [List.length_cons]; push_cast; ring
    rw [e]
    show report (n + 1) x :: reports_from (n + 1) (xs ++ ys)
      = report (n + 1) x :: reports_from (n + 1) xs ++ reports_from (n + 1 + xs.length) ys
    rw [ih]
    rfl

/-- The loop on one newline-terminated line of any length: one block per piece,
then the loop goes on after the newline. -/
theorem main_loop_long_line (m : Nat) (l rest : List Char) (n : Int) (acc : List (List Emit))
    (fuel : Nat) (hm : l.length ≤ m) (hn : '\n' ∉ l)
    (hk : n + ((line_pieces l).length : Int) ≤ INT_MAX)
    (hf : (l ++ '\n' :: rest).length ≤ fuel) :
    main_loop fuel (l ++ '\n' :: rest) n acc
      = main_loop rest.length rest (n + ((line_pieces l).length : Int))
          (acc ++ reports_from n (line_pieces l)) := by
  induction m generalizing l n acc fuel with
  | zero =>
    have hs : l.length ≤ 254 := by omega
    rw [line_pieces_short l hs] at hk ⊢
    simp only [List.length_singleton, Nat.cast_one] at hk ⊢
    cases fuel with
    | zero => simp at hf
    | succ fuel =>
      simp only [List.length_append, List.length_cons] at hf
      rw [main_loop_line fuel l rest n acc hn hs (by omega),
        main_loop_fuel fuel rest.length rest _ _ (by omega) (le_refl _)]
      rfl
  | succ m ih =>
    by_cases hs : l.length ≤ 254
    · rw [line_pieces_short l hs] at hk ⊢
      simp only [List.length_singleton, Nat.cast_one] at hk ⊢
      cases fuel with
      | zero => simp at hf
      | succ fuel =>
        simp only [List.length_append, List.length_cons] at hf
        rw [main_loop_line fuel l rest n acc hn hs (by omega),
          main_loop_fuel fuel rest.length rest _ _ (by omega) (le_refl _)]
        rfl
    · have hlong : 255 ≤ l.length := by omega
      rw [line_pieces_long l hlong] at hk ⊢
      simp only [List.length_cons] at hk ⊢
      have hlen0 : (0 : Int) ≤ ((line_pieces (l.drop 255)).length : Int) := Int.ofNat_nonneg _
      cases fuel with
      | zero => simp at hf
      | succ fuel =>
        have hsplit : l ++ '\n' :: rest = l.take 255 ++ (l.drop 255 ++ '\n' :: rest) := by
          rw [← List.append_assoc, List.take_append_drop]
        have hdl : (l.drop 255).length = l.length - 255 := List.length_drop _ _
        have htl : (l.take 255).length = 255 := by rw [List.length_take]; omega
        rw [hsplit] at hf ⊢
        simp only [List.length_append, List.length_cons, htl] at hf
        rw [main_loop_chunk fuel (l.take 255) _ n acc
            (fun hc => hn (List.mem_of_mem_take hc)) htl (by push_cast at hk; omega),
          ih (l.drop 255) (n + 1) _ fuel (by omega)
            (fun hc => hn (List.mem_of_mem_drop hc)) (by push_cast at hk ⊢; omega)
            (by simp only [List.length_append, List.length_cons]; omega)]
        simp only [reports_from, List.append_assoc, List.singleton_append]
        have e : n + 1 + ((line_pieces (l.drop 255)).length : Int)
            = n + (((line_pieces (l.drop 255)).length + 1 : Nat) : Int) := by
          push_cast; ring
        rw [e]

/-- The loop on newline-terminated lines of any length, followed by `rest`. -/
theorem main_loop_long_lines (lines : List (List Char)) (rest : List Char) (n : Int)
    (acc : List (List Emit)) (fuel : Nat) (hl : ∀ l ∈ lines, '\n' ∉ l)
    (hk : n + (((lines.flatMap line_pieces).length : Nat) : Int) ≤ INT_MAX)
    (hf : (file_of_lines lines ++ rest).length ≤ fuel) :
    main_loop fuel (file_of_lines lines ++ rest) n acc
      = main_loop rest.length rest (n + (((lines.flatMap line_pieces).length : Nat) : Int))
          (acc ++ reports_from n (lines.flatMap line_pieces)) := by
  induction lines generalizing n acc fuel with
  | nil =>
    simp only [file_of_lines, List.map_nil, List.flatten_nil, List.nil_append,
      List.flatMap_nil, List.length_nil, Nat.cast_zero, add_zero, reports_from,
      List.append_nil] at hf ⊢
    exact main_loop_fuel fuel rest.length rest n acc hf (le_refl _)
  | cons l ls ih =>
    have hfile : file_of_lines (l :: ls) ++ rest = l ++ '\n' :: (file_of_lines ls ++ rest) := by
      simp [file_of_lines]
    rw [hfile] at hf ⊢
    simp only [List.flatMap_cons, List.length_append] at hk ⊢
    have hlen0 : (0 : Int) ≤ (((ls.flatMap line_pieces).length : Nat) : Int) :=
      Int.ofNat_nonneg _
    rw [main_loop_long_line l.length l _ n acc fuel (le_refl _)
        (hl l (List.mem_cons_self _ _)) (by push_cast at hk; omega) hf,
      ih (n + ((line_pieces l).length : Int)) _ _
        (fun x hx => hl x (List.mem_cons_of_mem _ hx)) (by push_cast at hk ⊢; omega)
        (le_refl _),
      reports_from_append, List.append_assoc]
    have e : n + ((line_pieces l).length : Int) + (((ls.flatMap line_pieces).length : Nat) : Int)
        = n + (((line_pieces l).length + (ls.flatMap line_pieces).length : Nat) : Int) := by
      push_cast; ring
    rw [e]

/-- The loop on a last line without a newline, of any length: one block per
piece, then the end of the file. -/
theorem main_loop_long_last (m : Nat) (l : List Char) (n : Int) (acc : List (List Emit))
    (fuel : Nat) (hm : l.length ≤ m) (hn : '\n' ∉ l)
    (hk : n + ((last_pieces l).length : Int) ≤ INT_MAX) (hf : l.length ≤ fuel) :
    main_loop fuel l n acc = some (acc ++ reports_from n (last_pieces l)) := by
  induction m generalizing l n acc fuel with
  | zero =>
    have : l = [] := List.length_eq_zero.mp (by omega)
    subst this
    cases fuel <;> simp [main_loop, fgets, last_pieces_nil, reports_from]
  | succ m ih =>
    by_cases hnil : l = []
    · subst hnil
      cases fuel <;> simp [main_loop, fgets, last_pieces_nil, reports_from]
    · have hpos : 0 < l.length := List.length_pos.mpr hnil
      cases fuel with
      | zero => omega
      | succ fuel =>
        by_cases hs : l.length ≤ 255
        · rw [last_pieces_short l hnil hs] at hk ⊢
          simp only [List.length_singleton, Nat.cast_one] at hk
          rw [main_loop_last fuel l n acc hnil hn hs (by omega)]
          rfl
        · rw [last_pieces_long l (by omega)] at hk ⊢
          simp only [List.length_cons] at hk
          have hlen0 : (0 : Int) ≤ ((last_pieces (l.drop 255)).length : Int) :=
            Int.ofNat_nonneg _
          have hdl : (l.drop 255).length = l.length - 255 := List.length_drop _ _
          have htl : (l.take 255).length = 255 := by rw [List.length_take]; omega
          have hstep := main_loop_chunk fuel (l.take 255) (l.drop 255) n acc
            (fun hc => hn (List.mem_of_mem_take hc)) htl (by push_cast at hk; omega)
          rw [List.take_append_drop] at hstep
          rw [hstep, ih (l.drop 255) (n + 1) _ fuel (by omega)
            (fun hc => hn (List.mem_of_mem_drop hc)) (by push_cast at hk ⊢; omega) (by omega)]
          simp [reports_from]

/-- The run of `main` on any text: lines of any length, the last one possibly
without a newline. -/
theorem main_blocks_pieces (lines : List (List Char)) (last : List Char)
    (hl : ∀ l ∈ lines, '\n' ∉ l) (hlast : '\n' ∉ last)
    (hk : (((lines.flatMap line_pieces ++ last_pieces last).length : Nat) : Int) ≤ INT_MAX) :
    main_blocks (file_of_lines lines ++ last)
      = some (reports_from 0 (lines.flatMap line_pieces ++ last_pieces last)) := by
  unfold main_blocks
  simp only [List.length_append] at hk
  have hlen0 : (0 : Int) ≤ ((last_pieces last).length : Int) := Int.ofNat_nonneg _
  have hlen1 : (0 : Int) ≤ (((lines.flatMap line_pieces).length : Nat) : Int) :=
    Int.ofNat_nonneg _
  rw [main_loop_long_lines lines last 0 [] _ hl (by push_cast at hk ⊢; omega) (le_refl _),
    main_loop_long_last last.length last _ _ _ (le_refl _) hlast
      (by push_cast at hk ⊢; omega) (le_refl _),
    reports_from_append]
  simp

/-- C16, as the code has it: the line-length limit is the size of the pieces
`fgets` delivers, not a truncation point.  For every input (lines of any length,
the last one possibly without a newline, at most `INT_MAX` pieces in all) the
run of `main` ends and prints exactly one non-empty block per piece, numbered
consecutively from 1: a line followed by its newline is read as its successive
runs of 255 characters and then what is left before the newline, so a line of
`L` characters gives `L / 255 + 1` blocks (two for 255 to 509 characters, one up
to 254); no character is discarded, and the lines after a long line are numbered
after its pieces. -/
theorem long_line_is_split (lines : List (List Char)) (last : List Char)
    (hl : ∀ l ∈ lines, '\n' ∉ l) (hlast : '\n' ∉ last)
    (hk : (((lines.flatMap line_pieces ++ last_pieces last).length : Nat) : Int) ≤ INT_MAX) :
    ∃ blocks, main_blocks (file_of_lines lines ++ last) = some blocks ∧
      main (some (file_of_lines lines ++ last)) = some (stdout_text blocks.flatten, 0) ∧
      blocks.length = (lines.flatMap line_pieces ++ last_pieces last).length ∧
      (∀ (i : Nat) (p : List Char),
        (lines.flatMap line_pieces ++ last_pieces last)[i]? = some p →
        blocks[i]? = some (report ((i : Int) + 1) p) ∧
        process_tokens ((i : Int) + 1) (String.mk (c_string p))
          = some (report ((i : Int) + 1) p) ∧
        report ((i : Int) + 1) p ≠ [] ∧
        (report ((i : Int) + 1) p
            = valid_block ((i : Int) + 1) ((words (String.mk (c_string p))).take 10) ∨
          ∀ e ∈ report ((i : Int) + 1) p, ∃ msg t, e = Emit.error ((i : Int) + 1) msg t)) ∧
      (∀ l : List Char, (line_pieces l).flatten = l ∧
        (line_pieces l).length = l.length / 255 + 1 ∧
        ∀ p ∈ line_pieces l, p.length ≤ 255) ∧
      (∀ l : List Char, (last_pieces l).flatten = l ∧
        (last_pieces l).length = (l.length + 254) / 255 ∧
        ∀ p ∈ last_pieces l, p.length ≤ 255) ∧
      (∀ l : List Char, l.length ≤ 254 → line_pieces l = [l]) ∧
      (∀ l : List Char, 255 ≤ l.length → l.length ≤ 509 →
        line_pieces l = [l.take 255, l.drop 255]) ∧
      (∀ l : List Char, 255 ≤ l.length →
        line_pieces l = l.take 255 :: line_pieces (l.drop 255)) := by
  have hrun := main_blocks_pieces lines last hl hlast hk
  refine ⟨_, hrun, ?_, reports_from_length 0 _, ?_, ?_, ?_, line_pieces_short, ?_,
    line_pieces_long⟩
  · simp only [main, hrun, Option.map_some']
  · intro i p hi
    refine ⟨?_, process_tokens_report _ p, report_ne_nil _ p, report_numbered _ p⟩
    rw [reports_from_getElem?, hi]
    simp
  · intro l
    refine ⟨line_pieces_flatten l.length l (le_refl _), line_pieces_length l, ?_⟩
    intro p hp
    simp only [line_pieces, List.mem_map] at hp
    obtain ⟨i, -, rfl⟩ := hp
    rw [List.length_take]
    omega
  · intro l
    refine ⟨last_pieces_flatten l.length l (le_refl _), last_pieces_length l, ?_⟩
    intro p hp
    simp only [last_pieces, List.mem_map] at hp
    obtain ⟨i, -, rfl⟩ := hp
    rw [List.length_take]
    omega
  · intro l h1 h2
    rw [line_pieces_long l h1, line_pieces_short (l.drop 255) (by rw [List.length_drop]; omega)]

set_option maxRecDepth 1000000 in
theorem long_line_is_split_witness :
    (∀ l ∈ [List.replicate 254 ' ' ++ "STOP END".toList, "STOP".toList], '\n' ∉ l) ∧
    '\n' ∉ ([] : List Char) ∧
    ∃ blocks,
      main_blocks (file_of_lines [List.replicate 254 ' ' ++ "STOP END".toList, "STOP".toList]
        ++ []) = some blocks ∧
      blocks.length = 3 := by
  refine ⟨by decide, by decide, ?_⟩
  obtain ⟨blocks, h1, -, h3, -⟩ :=
    long_line_is_split [List.replicate 254 ' ' ++ "STOP END".toList, "STOP".toList] []
      (by decide) (by decide) (by decide)
  refine ⟨blocks, h1, ?_⟩
  rw [h3]
  decide

set_option maxRecDepth 1000000 in
/-- C16, as stated, fails: of a line of 262 characters the text after the first
255 is not discarded: it is processed as line 2, the line gives two blocks, and
the line after it is numbered 3; with a short first line it is numbered 2. -/
theorem long_line_not_truncated :
    main (some (List.replicate 254 ' ' ++ "STOP END\nSTOP\n".toList))
      = some ("Error (Line 1): Invalid Mnemonic Instruction 'S'\n" ++
          "Error (Line 2): Invalid Mnemonic Instruction 'END'\n" ++
          "[VALID] Line 3: STOP \n", 0) ∧
    main_blocks (List.replicate 254 ' ' ++ "STOP END\nSTOP\n".toList)
      = some [[Emit.error 1 "Invalid Mnemonic Instruction" "S"],
          [Emit.error 2 "Invalid Mnemonic Instruction" "END"],
          valid_block 3 ["STOP"]] ∧
    main (some " STOP END\nSTOP\n".toList)
      = some ("Error (Line 1): Invalid Symbolic Name 'STOP'\n" ++
          "Error (Line 1): Invalid Mnemonic Instruction 'END'\n" ++
          "[VALID] Line 2: STOP \n", 0) := by
  decide

end Assignment2
